import Mathlib

/-!
# Verification of the universal-excel-splitter merge core

Shallow embedding of the merge engine, value normalizer, header registry,
filter/split predicate and field-management handlers of the repository,
together with proofs and refutations of the stated properties.

JavaScript numbers are modelled as exact rationals (`Rat`); IEEE-754
rounding is outside the model.  JS objects (rows, the mapping record) are
modelled as insertion-ordered association lists.
-/

set_option maxHeartbeats 1000000

/-- A raw spreadsheet/JS cell value: string, number, boolean, `null` or
`undefined` (the value model of `any` cells in `excelUtils.ts`). -/
inductive JSValue where
  | str (s : String)
  | num (q : Rat)
  | bool (b : Bool)
  | null
  | undef
deriving DecidableEq, Repr

/-- A JS object row: insertion-ordered string-keyed properties. -/
abbrev JSRow := List (String × JSValue)

/-- `row[h]`: an absent property reads as `undefined`. -/
def getProp (row : JSRow) (h : String) : JSValue :=
  (row.lookup h).getD JSValue.undef

/-- `Object.prototype.hasOwnProperty.call(row, h)`. -/
def hasProp (row : JSRow) (h : String) : Bool :=
  (row.lookup h).isSome

/-- JS property assignment `row[h] = v`: overwrite in place if the key is
present, otherwise append. -/
def setProp (row : JSRow) (h : String) (v : JSValue) : JSRow :=
  if (row.lookup h).isSome then
    row.map (fun p => if p.1 = h then (p.1, v) else p)
  else
    row ++ [(h, v)]

/-- JS truthiness of a cell value (`NaN` does not occur in the model). -/
def jsTruthy : JSValue → Bool
  | .str s => s ≠ ""
  | .num q => q ≠ 0
  | .bool b => b
  | .null => false
  | JSValue.undef => false

/-! ## Characters and string utilities -/

/-- The whitespace class used by `String.prototype.trim` and `\s`
(ASCII part; the development only exercises ASCII whitespace). -/
def isJSWS (c : Char) : Bool :=
  c = ' ' || c = '\t' || c = '\n' || c = '\r' || c = '\x0b' || c = '\x0c'

def isDigitChar (c : Char) : Bool := '0' ≤ c && c ≤ '9'

def isDigitComma (c : Char) : Bool := isDigitChar c || c = ','

def isCurrencyChar (c : Char) : Bool := c = '$' || c = '€' || c = '£' || c = '¥'

/-- Drop trailing characters satisfying `p`. -/
def dropTrailing (p : Char → Bool) (l : List Char) : List Char :=
  (l.reverse.dropWhile p).reverse

/-- `String.prototype.trim` on the character list. -/
def jsTrimList (l : List Char) : List Char :=
  dropTrailing isJSWS (l.dropWhile isJSWS)

/-- `String.prototype.trim`. -/
def jsTrim (s : String) : String := ⟨jsTrimList s.data⟩

/-! ## Decimal digit rendering (for `toISOString` padding and `String(n)`) -/

/-- Fuel-driven base-10 digit expansion (most significant first). -/
def natDigitsGo : Nat → Nat → List Char
  | 0, _ => []
  | fuel + 1, n =>
    if n < 10 then [Nat.digitChar n]
    else natDigitsGo fuel (n / 10) ++ [Nat.digitChar (n % 10)]

/-- Decimal digits of a natural number, most significant first. -/
def natDigits (n : Nat) : List Char := natDigitsGo (n + 1) n

/-- Decimal rendering of a natural number. -/
def natStr (n : Nat) : String := ⟨natDigits n⟩

/-- Zero-pad a natural number to width `w` (as `toISOString` does). -/
def padNat (w n : Nat) : String :=
  ⟨List.replicate (w - (natDigits n).length) '0' ++ natDigits n⟩

/-- Sign-aware zero-padded rendering of an integer to width `w`. -/
def padInt (w : Nat) (i : Int) : String :=
  (if i < 0 then "-" else "") ++ padNat w i.natAbs

/-- Decimal rendering of an integer. -/
def intStr (i : Int) : String :=
  (if i < 0 then "-" else "") ++ natStr i.natAbs

/-! ## `String(number)`: exact finite-decimal rendering -/

/-- Count and strip the factors `p` of `n` (fuel-driven). -/
def stripFactorGo (p : Nat) : Nat → Nat → Nat × Nat
  | 0, n => (0, n)
  | fuel + 1, n =>
    if 2 ≤ p ∧ n ≠ 0 ∧ n % p = 0 then
      let r := stripFactorGo p fuel (n / p)
      (r.1 + 1, r.2)
    else (0, n)

def stripFactor (p n : Nat) : Nat × Nat := stripFactorGo p n n

/-- `String(q)` for a JS number, modelled for integers and finite decimal
fractions (denominator `2^a * 5^b`); other rationals (unreachable from the
modelled parsers) fall back to a fraction rendering. -/
def ratToString (q : Rat) : String :=
  if q.den = 1 then intStr q.num
  else
    let a := (stripFactor 2 q.den).1
    let b := (stripFactor 5 ((stripFactor 2 q.den).2)).1
    let rest := (stripFactor 5 ((stripFactor 2 q.den).2)).2
    if rest = 1 then
      let k := max a b
      let scaled := q.num.natAbs * 10 ^ k / q.den
      (if q.num < 0 then "-" else "") ++
        natStr (scaled / 10 ^ k) ++ "." ++ padNat k (scaled % 10 ^ k)
    else intStr q.num ++ "/" ++ natStr q.den

/-- `String(v)` string conversion of a cell value. -/
def jsToString : JSValue → String
  | .str s => s
  | .num q => ratToString q
  | .bool b => if b then "true" else "false"
  | .null => "null"
  | JSValue.undef => "undefined"

/-! ## `parseFloat` -/

def digitsToNat (l : List Char) : Nat :=
  l.foldl (fun a c => 10 * a + (c.toNat - '0'.toNat)) 0

/-- Strip an optional leading sign, reporting whether it was `-`. -/
def splitSign : List Char → Bool × List Char
  | '-' :: r => (true, r)
  | '+' :: r => (false, r)
  | l => (false, l)

/-- The purely structural part of a `parseFloat` scan: sign flag, integer
digits, fraction digits, exponent sign flag and exponent digits of the
longest numeric-literal prefix. -/
structure FloatParts where
  neg : Bool
  intPart : List Char
  fracPart : List Char
  expNeg : Bool
  expPart : List Char
deriving DecidableEq, Repr

def parseFloatSplit (s : String) : FloatParts :=
  let p := splitSign (s.data.dropWhile isJSWS)
  let l1 := p.2
  let ds := l1.takeWhile isDigitChar
  let l2 := l1.dropWhile isDigitChar
  let fp : List Char × List Char :=
    match l2 with
    | '.' :: r => (r.takeWhile isDigitChar, r.dropWhile isDigitChar)
    | _ => ([], l2)
  let ep : Bool × List Char :=
    match fp.2 with
    | 'e' :: r => ((splitSign r).1, (splitSign r).2.takeWhile isDigitChar)
    | 'E' :: r => ((splitSign r).1, (splitSign r).2.takeWhile isDigitChar)
    | _ => (false, [])
  ⟨p.1, ds, fp.1, ep.1, ep.2⟩

/-- The tolerant float parser `parseFloat`: leading whitespace, optional
sign, digits with optional fraction and exponent, ignoring any trailing
junk; `none` models `NaN`.  (`Infinity` literals are not modelled.) -/
def parseFloat (s : String) : Option Rat :=
  let p := parseFloatSplit s
  if p.intPart = [] ∧ p.fracPart = [] then none
  else
    let mag : Rat := (digitsToNat p.intPart : Rat) + mkRat (digitsToNat p.fracPart) (10 ^ p.fracPart.length)
    let expFactor : Rat :=
      if p.expPart = [] then 1
      else if p.expNeg then mkRat 1 (10 ^ digitsToNat p.expPart)
      else (10 : Rat) ^ digitsToNat p.expPart
    some ((if p.neg then -1 else 1) * mag * expFactor)

/-! ## The currency/number regex `^[$€£¥]?\s*-?[\d,]+(\.\d+)?%?$`

Deterministic matcher: each regex element consumes a character class
disjoint from its successors, so greedy matching is exact. -/

/-- Match `(\.\d+)?%?$` after the mandatory `[\d,]+` group. -/
def matchNumTail (l : List Char) : Bool :=
  match l with
  | [] => true
  | c :: rest =>
    if c = '%' then rest.isEmpty
    else if c = '.' then
      match rest with
      | [] => false
      | c2 :: _ =>
        if isDigitChar c2 then
          match rest.dropWhile isDigitChar with
          | [] => true
          | c3 :: r3 => decide (c3 = '%') && r3.isEmpty
        else false
    else false

/-- Match `[\d,]+(\.\d+)?%?$`. -/
def matchNumCore (l : List Char) : Bool :=
  match l with
  | [] => false
  | c :: _ =>
    if isDigitComma c then matchNumTail (l.dropWhile isDigitComma)
    else false

/-- Full-string test of `^[$€£¥]?\s*-?[\d,]+(\.\d+)?%?$`. -/
def matchNumRegex (l : List Char) : Bool :=
  let l1 := match l with
    | c :: rest => if isCurrencyChar c then rest else l
    | [] => l
  let l2 := l1.dropWhile isJSWS
  let l3 := match l2 with
    | c :: rest => if c = '-' then rest else l2
    | [] => l2
  matchNumCore l3

/-- `trimmed.replace(/[^0-9.-]/g, '')`. -/
def stripNonNum (s : String) : String :=
  ⟨s.data.filter (fun c => isDigitChar c || c = '.' || c = '-')⟩

/-! ## Date serial decoding (`excelDateToJSDate`) -/

/-- `Math.round`: round half toward positive infinity. -/
def jsRound (q : Rat) : Int := ⌊q + 1 / 2⌋

/-- Days-since-epoch to proleptic-Gregorian civil date
(year, month, day); the algorithm used by every civil-date library. -/
def civilFromDays (z0 : Int) : Int × Nat × Nat :=
  let z := z0 + 719468
  let era := z.fdiv 146097
  let doe := (z - era * 146097).toNat
  let yoe := (doe - doe / 1460 + doe / 36524 - doe / 146096) / 365
  let y := (yoe : Int) + era * 400
  let doy := doe - (365 * yoe + yoe / 4 - yoe / 100)
  let mp := (5 * doy + 2) / 153
  let d := doy - (153 * mp + 2) / 5 + 1
  let m := if mp < 10 then mp + 3 else mp - 9
  (if m ≤ 2 then y + 1 else y, m, d)

/-- The date part of `new Date(ms).toISOString()`:
`YYYY-MM-DD` with zero padding. -/
def isoDateOfMs (ms : Int) : String :=
  let days := ms.fdiv 86400000
  let c := civilFromDays days
  padInt 4 c.1 ++ "-" ++ padNat 2 c.2.1 ++ "-" ++ padNat 2 c.2.2

/-- `excelDateToJSDate` (src/utils/excelUtils.ts:7-11). -/
def excelDateToJSDate (serial : Rat) : String :=
  if serial < 1 ∨ serial > 100000 then ratToString serial
  else isoDateOfMs (jsRound ((serial - 25569) * 86400 * 1000))

/-- `isPotentialExcelDate` restricted to numbers
(src/utils/excelUtils.ts:13-16). -/
def isPotentialExcelDate (q : Rat) : Bool := 20000 < q && q < 60000

/-- `cleanAndFormatValue` (src/utils/excelUtils.ts:66-80): the single
value normalizer applied to every merged cell.  The source's leading
`val === undefined || val === null || val === ''` test is rendered per
constructor (only a string can be strictly equal to `''`). -/
def cleanAndFormatValue : JSValue → JSValue
  | JSValue.undef => .str ""
  | .null => .str ""
  | .num q => if isPotentialExcelDate q then .str (excelDateToJSDate q) else .num q
  | .bool b => .bool b
  | .str s =>
    if s = "" then .str ""
    else
      let trimmed := jsTrim s
      if matchNumRegex trimmed.data then
        match parseFloat (stripNonNum trimmed) with
        | some q => .num q
        | none => .str trimmed
      else .str trimmed

/-! ## Header registry (`makeHeadersUnique`, src/utils/excelUtils.ts:18-31) -/

/-- The cleaning applied to a single raw header:
`String(h || 'Column').trim()`, then `'Column'` if the trim is empty. -/
def cleanHeaderOf (h : String) : String :=
  let original := jsTrim (if h = "" then "Column" else h)
  if original = "" then "Column" else original

/-- JS object property update on an existing key of the `counts` record. -/
def assocSet (counts : List (String × Nat)) (k : String) (n : Nat) : List (String × Nat) :=
  counts.map (fun p => if p.1 = k then (p.1, n) else p)

/-- The loop of `makeHeadersUnique`, carrying the `counts` record. -/
def makeHeadersUniqueGo (counts : List (String × Nat)) : List String → List String
  | [] => []
  | h :: t =>
    let cleanHeader := cleanHeaderOf h
    match counts.lookup cleanHeader with
    | none => cleanHeader :: makeHeadersUniqueGo (counts ++ [(cleanHeader, 0)]) t
    | some n =>
      (cleanHeader ++ "_" ++ natStr (n + 1)) :: makeHeadersUniqueGo (assocSet counts cleanHeader (n + 1)) t

/-- `makeHeadersUnique` — the header registry's `register`. -/
def makeHeadersUnique (rawHeaders : List String) : List String :=
  makeHeadersUniqueGo [] rawHeaders

/-- Specification-side renaming: the `k`-th occurrence (0-based) of a
cleaned name gets the suffix `_k`, the first occurrence none. -/
def headerSpecGo (processed : List String) : List String → List String
  | [] => []
  | h :: t =>
    let c := cleanHeaderOf h
    (if processed.count c = 0 then c else c ++ "_" ++ natStr (processed.count c)) ::
      headerSpecGo (processed ++ [c]) t

def headerSpec (rawHeaders : List String) : List String := headerSpecGo [] rawHeaders


/-! ## Data model (src/types.ts) -/

/-- One imported sheet (`SheetData` in src/types.ts). -/
structure SheetData where
  fileName : String
  sheetName : String
  headers : List String
  rows : List JSRow
deriving DecidableEq, Repr

inductive MergeMethod where
  | vertical
  | join
deriving DecidableEq, Repr

inductive JoinType where
  | outer
  | inner
  | left
deriving DecidableEq, Repr

/-- `MergeConfig` in src/types.ts. -/
structure MergeConfig where
  method : MergeMethod
  joinKey : String
  joinType : JoinType
  removeDuplicates : Bool
deriving DecidableEq, Repr

/-- The user mapping: target-field key to ordered candidate mapping ids
(a JS object; insertion-ordered, keys unique). -/
abbrev Mapping := List (String × List String)

/-! ## Mapping ids (`parseMappingId`, src/utils/excelUtils.ts:83-91) -/

structure MappingParts where
  fileName : String
  sheetName : String
  header : String
deriving DecidableEq, Repr

/-- `String.prototype.split(sep)` on character lists (fuel-driven; the
fuel exceeds the number of consumed characters). -/
def jsSplitGo (sep : List Char) : Nat → List Char → List Char → List (List Char)
  | 0, l, acc => [acc.reverse ++ l]
  | fuel + 1, l, acc =>
    match l with
    | [] => [acc.reverse]
    | c :: rest =>
      if sep.isPrefixOf (c :: rest) then
        acc.reverse :: jsSplitGo sep fuel (List.drop sep.length (c :: rest)) []
      else
        jsSplitGo sep fuel rest (c :: acc)

/-- `s.split(sep)` for a non-empty separator. -/
def jsSplit (s sep : String) : List String :=
  (jsSplitGo sep.data (s.data.length + 1) s.data []).map String.mk

/-- `parts.join(sep)`. -/
def joinSep (sep : String) : List String → String
  | [] => ""
  | [x] => x
  | x :: y :: xs => x ++ sep ++ joinSep sep (y :: xs)

/-- `parseMappingId`: fewer than three `::`-separated parts leaves the
whole id as the header; otherwise the remainder past the first two
delimiters is rejoined as the header. -/
def parseMappingId (mappingId : String) : MappingParts :=
  match jsSplit mappingId "::" with
  | a :: b :: c :: rest => ⟨a, b, joinSep "::" (c :: rest)⟩
  | _ => ⟨"", "", mappingId⟩

/-- `mId.includes('::')`. -/
def hasSep (mId : String) : Bool := 2 ≤ (jsSplit mId "::").length

/-! ## Stack merge (`stackData`, src/utils/excelUtils.ts:93-124) -/

/-- The candidate scan inside `stackData`'s row loop: first candidate
that either names this sheet exactly or is a bare header
(no `::`), whose row property exists and is non-undefined, non-null and
non-empty. -/
def resolveValue (sheet : SheetData) (row : JSRow) : List String → JSValue
  | [] => .str ""
  | mId :: rest =>
    let p := parseMappingId mId
    if (p.fileName = sheet.fileName ∧ p.sheetName = sheet.sheetName) ∨ ¬hasSep mId = true then
      let targetHeader := if hasSep mId then p.header else mId
      match row.lookup targetHeader with
      | some v =>
        if v ≠ JSValue.undef ∧ v ≠ .null ∧ v ≠ .str "" then v
        else resolveValue sheet row rest
      | none => resolveValue sheet row rest
    else resolveValue sheet row rest

/-- One output row of the stack merge. -/
def stackRowOf (mappings : Mapping) (sheet : SheetData) (i : Nat) (row : JSRow) : JSRow :=
  let base : JSRow := [("id", .str (sheet.fileName ++ "-" ++ sheet.sheetName ++ "-" ++ natStr i))]
  let withFields := mappings.foldl
    (fun r tf => setProp r tf.1 (cleanAndFormatValue (resolveValue sheet row tf.2))) base
  setProp (setProp withFields "_sourceFile" (.str sheet.fileName))
    "_sourceSheet" (.str sheet.sheetName)

/-- `stackData`: per-sheet row transformation, accumulated by append. -/
def stackData (sheets : List SheetData) (mappings : Mapping) : List JSRow :=
  sheets.foldl
    (fun merged sheet =>
      merged ++ sheet.rows.enum.map (fun p => stackRowOf mappings sheet p.1 p.2)) []

/-! ## Join merge (`joinData`, src/utils/excelUtils.ts:126-207) -/

/-- The key derivation of the key-index build (lines 134-143): first
candidate naming this sheet whose value is defined, non-null and has a
non-empty trimmed string form; the key is that trimmed string. -/
def deriveKey (keyIds : List String) (sheet : SheetData) (row : JSRow) : Option String :=
  match keyIds with
  | [] => none
  | mId :: rest =>
    let p := parseMappingId mId
    if p.fileName = sheet.fileName ∧ p.sheetName = sheet.sheetName then
      if getProp row p.header ≠ JSValue.undef ∧ getProp row p.header ≠ .null ∧
          jsTrim (jsToString (getProp row p.header)) ≠ "" then
        some (jsTrim (jsToString (getProp row p.header)))
      else deriveKey rest sheet row
    else deriveKey rest sheet row

/-- Per-key slot record: sheet index to the first-seen row of that sheet. -/
abbrev SlotMap := List (Nat × JSRow)

/-- The key index: insertion-ordered `keyMap` plus the `allKeySet`
insertion-ordered key set. -/
structure KeyMapState where
  keyMap : List (String × SlotMap)
  allKeys : List String
deriving DecidableEq, Repr

/-- `{...row, _srcFile: ..., _srcSheet: ...}`. -/
def withSrc (sheet : SheetData) (row : JSRow) : JSRow :=
  setProp (setProp row "_srcFile" (.str sheet.fileName)) "_srcSheet" (.str sheet.sheetName)

/-- Processing one row in the key-index build (lines 133-154). -/
def addRowToKeyMap (keyIds : List String) (sheet : SheetData) (sheetIndex : Nat)
    (st : KeyMapState) (row : JSRow) : KeyMapState :=
  match deriveKey keyIds sheet row with
  | none => st
  | some k =>
    if k = "" then st
    else
      let st1 : KeyMapState :=
        if (st.keyMap.lookup k).isSome then st
        else ⟨st.keyMap ++ [(k, [])], st.allKeys ++ [k]⟩
      ⟨st1.keyMap.map (fun p =>
        if p.1 = k then
          (p.1, if (p.2.lookup sheetIndex).isSome then p.2
                else p.2 ++ [(sheetIndex, withSrc sheet row)])
        else p), st1.allKeys⟩

/-- The key-index build over all sheets (lines 132-155). -/
def buildKeyMap (sheets : List SheetData) (keyIds : List String) : KeyMapState :=
  sheets.enum.foldl
    (fun st p => p.2.rows.foldl (addRowToKeyMap keyIds p.2 p.1) st) ⟨[], []⟩

/-- The key derivation of the `left` branch (lines 161-169): first
candidate naming the first sheet whose raw value is JS-truthy. -/
def deriveLeftKey (keyIds : List String) (s0 : SheetData) (row : JSRow) : Option String :=
  match keyIds with
  | [] => none
  | mId :: rest =>
    let p := parseMappingId mId
    if p.fileName = s0.fileName ∧ p.sheetName = s0.sheetName ∧
        jsTruthy (getProp row p.header) = true then
      some (jsTrim (jsToString (getProp row p.header)))
    else deriveLeftKey rest s0 row

/-- `Array.from(new Set(l))`: deduplicate keeping first occurrences. -/
def dedupFirstGo (seen : List String) : List String → List String
  | [] => []
  | x :: xs => if x ∈ seen then dedupFirstGo seen xs else x :: dedupFirstGo (seen ++ [x]) xs

def dedupFirst (l : List String) : List String := dedupFirstGo [] l

/-- `finalKeys` by join type (lines 157-176). -/
def joinFinalKeys (sheets : List SheetData) (keyIds : List String) (st : KeyMapState) :
    JoinType → List String
  | .outer => st.allKeys
  | .left =>
    match sheets with
    | [] => []
    | s0 :: _ => dedupFirst (s0.rows.filterMap (deriveLeftKey keyIds s0))
  | .inner =>
    st.allKeys.filter (fun k =>
      match st.keyMap.lookup k with
      | some slots => slots.length = sheets.length
      | none => false)

/-- Field-value scan of one sheet slot (lines 187-195). -/
def slotFieldValue (sheet : SheetData) (sRow : JSRow) : List String → Option JSValue
  | [] => none
  | mId :: rest =>
    let p := parseMappingId mId
    if p.fileName = sheet.fileName ∧ p.sheetName = sheet.sheetName then
      if getProp sRow p.header ≠ JSValue.undef ∧ getProp sRow p.header ≠ .null ∧
          getProp sRow p.header ≠ .str "" then some (getProp sRow p.header)
      else slotFieldValue sheet sRow rest
    else slotFieldValue sheet sRow rest

/-- Field value across sheets in index order (lines 183-198): the first
sheet slot contributing any candidate value wins. -/
def joinFieldValue (entry : SlotMap) (ids : List String) :
    List (Nat × SheetData) → JSValue
  | [] => .str ""
  | (i, sh) :: rest =>
    match entry.lookup i with
    | some sRow =>
      match slotFieldValue sh sRow ids with
      | some v => v
      | none => joinFieldValue entry ids rest
    | none => joinFieldValue entry ids rest

/-- `Object.values(entry)[0]`: numeric-string keys enumerate in ascending
order, so this is the slot with the smallest sheet index. -/
def objValuesFirst (slots : SlotMap) : Option JSRow :=
  match slots with
  | [] => none
  | s :: rest =>
    some ((rest.foldl (fun best cur => if cur.1 < best.1 then cur else best) s).2)

/-- One output row of the join merge (lines 178-204). -/
def buildJoinRow (sheets : List SheetData) (mappings : Mapping) (st : KeyMapState)
    (idx : Nat) (k : String) : JSRow :=
  let entry := (st.keyMap.lookup k).getD []
  let base : JSRow := [("id", .str ("joined-" ++ k ++ "-" ++ natStr idx))]
  let withFields := mappings.foldl
    (fun r tf => setProp r tf.1 (cleanAndFormatValue (joinFieldValue entry tf.2 sheets.enum)))
    base
  let fs := objValuesFirst entry
  let srcFile := match fs with | some r => getProp r "_srcFile" | none => .str "Joined"
  let srcSheet := match fs with | some r => getProp r "_srcSheet" | none => .str "Joined"
  setProp (setProp withFields "_sourceFile" srcFile) "_sourceSheet" srcSheet

/-- The output key sequence of a join. -/
def joinKeySequence (sheets : List SheetData) (mappings : Mapping)
    (config : MergeConfig) : List String :=
  joinFinalKeys sheets ((mappings.lookup config.joinKey).getD [])
    (buildKeyMap sheets ((mappings.lookup config.joinKey).getD [])) config.joinType

/-- `joinData` (src/utils/excelUtils.ts:126-207). -/
def joinData (sheets : List SheetData) (mappings : Mapping) (config : MergeConfig) :
    List JSRow :=
  let keyIds := (mappings.lookup config.joinKey).getD []
  let st := buildKeyMap sheets keyIds
  (joinFinalKeys sheets keyIds st config.joinType).enum.map
    (fun p => buildJoinRow sheets mappings st p.1 p.2)

/-- `mergeData` (src/utils/excelUtils.ts:209-212). -/
def mergeData (sheets : List SheetData) (mappings : Mapping)
    (config : Option MergeConfig) : List JSRow :=
  match config with
  | some cfg => if cfg.method = .join then joinData sheets mappings cfg
                else stackData sheets mappings
  | none => stackData sheets mappings

/-! ## Filter/split predicate (`executeSplit`, src/unnamed/part_000:486-537) -/

inductive FilterOperator where
  | eq
  | neq
  | gt
  | lt
  | gte
  | lte
  | contains
  | not_contains
  | starts_with
  | ends_with
deriving DecidableEq, Repr

inductive ColumnType where
  | string
  | number
deriving DecidableEq, Repr

/-- Substring test (`String.prototype.includes`) on character lists. -/
def listIncludes (sub : List Char) : List Char → Bool
  | [] => sub.isEmpty
  | c :: rest => sub.isPrefixOf (c :: rest) || listIncludes sub rest

def strIncludes (hay sub : String) : Bool := listIncludes sub.data hay.data

def strStartsWith (s pre : String) : Bool := pre.data.isPrefixOf s.data

def strEndsWith (s suf : String) : Bool := suf.data.reverse.isPrefixOf s.data.reverse

/-- ASCII case lowering (`String.prototype.toLowerCase`; only the ASCII
range is modelled). -/
def charToLower (c : Char) : Char :=
  if 'A' ≤ c ∧ c ≤ 'Z' then Char.ofNat (c.toNat + 32) else c

def strToLower (s : String) : String := ⟨s.data.map charToLower⟩

/-- The row predicate inside `executeSplit`'s `currentData.filter`. -/
def splitPred (splitField : String) (splitType : ColumnType)
    (splitOperator : FilterOperator) (splitValue : String) (row : JSRow) : Bool :=
  let cellValue := getProp row splitField
  let coalesced := match cellValue with
    | JSValue.undef => JSValue.str ""
    | .null => JSValue.str ""
    | v => v
  let strCell := strToLower (jsToString coalesced)
  let strCompare := strToLower splitValue
  match splitType with
  | .number =>
    match parseFloat (jsToString cellValue), parseFloat splitValue with
    | some numCell, some numCompare =>
      match splitOperator with
      | .eq => decide (numCell = numCompare)
      | .neq => decide (numCell ≠ numCompare)
      | .gt => decide (numCell > numCompare)
      | .lt => decide (numCell < numCompare)
      | .gte => decide (numCell ≥ numCompare)
      | .lte => decide (numCell ≤ numCompare)
      | _ => false
    | _, _ => false
  | .string =>
    match splitOperator with
    | .eq => decide (strCell = strCompare)
    | .neq => decide (strCell ≠ strCompare)
    | .contains => strIncludes strCell strCompare
    | .not_contains => !strIncludes strCell strCompare
    | .starts_with => strStartsWith strCell strCompare
    | .ends_with => strEndsWith strCell strCompare
    | _ => false

/-- The filtering step of `executeSplit`. -/
def executeSplitFilter (rows : List JSRow) (splitField : String) (splitType : ColumnType)
    (splitOperator : FilterOperator) (splitValue : String) : List JSRow :=
  rows.filter (splitPred splitField splitType splitOperator splitValue)

/-! ## Field management (src/unnamed/part_001:225-257) -/

/-- `FieldDefinition` (src/types.ts). -/
structure FieldDefinition where
  key : String
  label : String
  type : ColumnType
deriving DecidableEq, Repr

/-- The mapping-screen state touched by the field handlers. -/
structure MappingState where
  fields : List FieldDefinition
  mapping : Mapping
  joinKey : String
deriving DecidableEq, Repr

/-- JS object property assignment on the mapping record. -/
def recSet (m : Mapping) (k : String) (v : List String) : Mapping :=
  if (m.lookup k).isSome then m.map (fun p => if p.1 = k then (p.1, v) else p)
  else m ++ [(k, v)]

/-- `delete next[k]` on the mapping record. -/
def recDelete (m : Mapping) (k : String) : Mapping :=
  m.filter (fun p => p.1 ≠ k)

/-- `handleAddField` (part_001:225-235): empty name is a silent no-op; a
name equal to an existing field key is reported and a no-op. -/
def handleAddField (st : MappingState) (newFieldName : String) : MappingState :=
  if jsTrim newFieldName = "" then st
  else
    let key := jsTrim newFieldName
    if st.fields.any (fun f => f.key = key) then st
    else
      { st with
        fields := st.fields ++ [⟨key, key, .string⟩],
        mapping := recSet st.mapping key [] }

/-- `handleRemoveField` (part_001:237-244). -/
def handleRemoveField (st : MappingState) (key : String) : MappingState :=
  { st with
    fields := st.fields.filter (fun f => f.key ≠ key),
    mapping := recDelete st.mapping key }

/-- `handleRenameField` (part_001:246-257): no duplicate check; an absent
source mapping entry is modelled as the empty candidate list. -/
def handleRenameField (st : MappingState) (oldKey newLabel : String) : MappingState :=
  if jsTrim newLabel = "" ∨ newLabel = oldKey then st
  else
    { fields := st.fields.map (fun f =>
        if f.key = oldKey then { f with label := newLabel, key := newLabel } else f),
      mapping := recSet (recDelete st.mapping oldKey) newLabel
        ((st.mapping.lookup oldKey).getD []),
      joinKey := if st.joinKey = oldKey then newLabel else st.joinKey }

/-! ## Verification-layer views of the key-index build -/

/-- All (sheetIndex, sheet, row) triples in processing order. -/
def rowTriples (sheets : List SheetData) : List (Nat × SheetData × JSRow) :=
  sheets.enum.flatMap (fun p => p.2.rows.map (fun row => (p.1, p.2, row)))

/-- Invariant of the key-index build after processing `triples`:
the key set mirrors the map's keys without duplicates, every slot record
is non-empty with distinct sheet indices and stems from a processed row
that derives its key, and the key set is exactly the set of derived keys. -/
def KMInv (ids : List String) (triples : List (Nat × SheetData × JSRow))
    (st : KeyMapState) : Prop :=
  st.allKeys = st.keyMap.map Prod.fst ∧
  st.allKeys.Nodup ∧
  (∀ p ∈ st.keyMap, p.2 ≠ [] ∧ (p.2.map Prod.fst).Nodup ∧
    ∀ q ∈ p.2, ∃ t ∈ triples, t.1 = q.1 ∧
      deriveKey ids t.2.1 t.2.2 = some p.1 ∧ q.2 = withSrc t.2.1 t.2.2) ∧
  (∀ k : String, k ∈ st.allKeys ↔ ∃ t ∈ triples, deriveKey ids t.2.1 t.2.2 = some k)

/-! ## Character-class and string lemmas -/

theorem digitChar_classes (c : Char) (h : isDigitChar c = true) :
    isJSWS c = false ∧ isCurrencyChar c = false ∧ c ≠ '-' ∧ c ≠ ',' ∧ c ≠ '.' ∧ c ≠ '%' := by
  simp only [isDigitChar, Bool.and_eq_true, decide_eq_true_eq] at h
  obtain ⟨h1, h2⟩ := h
  refine ⟨?_, ?_, ?_, ?_, ?_, ?_⟩
  · simp only [isJSWS, Bool.or_eq_false_iff, decide_eq_false_iff_not]
    refine ⟨⟨⟨⟨⟨?_, ?_⟩, ?_⟩, ?_⟩, ?_⟩, ?_⟩ <;> (rintro rfl; revert h1; decide)
  · simp only [isCurrencyChar, Bool.or_eq_false_iff, decide_eq_false_iff_not]
    refine ⟨⟨⟨?_, ?_⟩, ?_⟩, ?_⟩
    · rintro rfl; revert h1; decide
    · rintro rfl; revert h2; decide
    · rintro rfl; revert h2; decide
    · rintro rfl; revert h2; decide
  · rintro rfl; revert h1; decide
  · rintro rfl; revert h1; decide
  · rintro rfl; revert h1; decide
  · rintro rfl; revert h1; decide

theorem digit_isDigitComma (c : Char) (h : isDigitChar c = true) : isDigitComma c = true := by
  simp [isDigitComma, h]

theorem natDigitsGo_digits : ∀ (fuel n : Nat), ∀ c ∈ natDigitsGo fuel n, isDigitChar c = true := by
  have h10 : ∀ m, m < 10 → isDigitChar (Nat.digitChar m) = true := by decide
  intro fuel
  induction fuel with
  | zero => intro n c hc; simp [natDigitsGo] at hc
  | succ fuel ih =>
    intro n c hc
    simp only [natDigitsGo] at hc
    by_cases hn : n < 10
    · rw [if_pos hn] at hc
      simp only [List.mem_singleton] at hc
      exact hc ▸ h10 n hn
    · rw [if_neg hn] at hc
      rcases List.mem_append.mp hc with h | h
      · exact ih _ c h
      · simp only [List.mem_singleton] at h
        exact h ▸ h10 _ (Nat.mod_lt _ (by omega))

theorem natDigits_digits (n : Nat) : ∀ c ∈ natDigits n, isDigitChar c = true :=
  natDigitsGo_digits (n + 1) n

theorem natDigits_ne_nil (n : Nat) : natDigits n ≠ [] := by
  unfold natDigits natDigitsGo
  by_cases h : n < 10
  · simp [h]
  · simp [h]

theorem padNat_digits (w n : Nat) : ∀ c ∈ (padNat w n).data, isDigitChar c = true := by
  intro c hc
  rcases List.mem_append.mp hc with h | h
  · rw [List.eq_of_mem_replicate h]; decide
  · exact natDigits_digits n c h

theorem padNat_ne_nil (w n : Nat) : (padNat w n).data ≠ [] := by
  intro h
  rcases List.append_eq_nil.mp h with ⟨-, h2⟩
  exact natDigits_ne_nil n h2

/-! ## Trim lemmas -/

theorem dropWhile_eq_self_of_all {p : Char → Bool} {l : List Char}
    (h : ∀ c ∈ l, p c = false) : l.dropWhile p = l := by
  cases l with
  | nil => rfl
  | cons c t => exact List.dropWhile_cons_of_neg (by simp [h c (List.mem_cons_self c t)])

theorem dropTrailing_eq_self_of_all {p : Char → Bool} {l : List Char}
    (h : ∀ c ∈ l, p c = false) : dropTrailing p l = l := by
  unfold dropTrailing
  rw [dropWhile_eq_self_of_all (fun c hc => h c (List.mem_reverse.mp hc)), List.reverse_reverse]

theorem jsTrim_eq_self_of_all {s : String}
    (h : ∀ c ∈ s.data, isJSWS c = false) : jsTrim s = s := by
  show String.mk (jsTrimList s.data) = s
  unfold jsTrimList
  rw [dropWhile_eq_self_of_all h, dropTrailing_eq_self_of_all h]

theorem dropWhile_idem {p : Char → Bool} (l : List Char) :
    (l.dropWhile p).dropWhile p = l.dropWhile p := by
  cases h : l.dropWhile p with
  | nil => rfl
  | cons c t =>
    have hc : p c = false := by
      have := List.head_dropWhile_not p l (by simp [h])
      simpa [h] using this
    exact List.dropWhile_cons_of_neg (by simp [hc])

theorem dropTrailing_idem {p : Char → Bool} (l : List Char) :
    dropTrailing p (dropTrailing p l) = dropTrailing p l := by
  unfold dropTrailing
  rw [List.reverse_reverse, dropWhile_idem]

theorem dropTrailing_prefix {p : Char → Bool} (l : List Char) :
    dropTrailing p l <+: l := by
  rw [← List.reverse_suffix]
  unfold dropTrailing
  rw [List.reverse_reverse]
  exact List.dropWhile_suffix p

theorem dropWhile_head_false {p : Char → Bool} {l : List Char} {c : Char} {t : List Char}
    (h : l.dropWhile p = c :: t) : p c = false := by
  by_cases hc : p c = true
  · have hidem := dropWhile_idem (p := p) l
    rw [h, List.dropWhile_cons_of_pos hc] at hidem
    have hlen := congrArg List.length hidem
    have hle := (List.dropWhile_suffix p (l := t)).sublist.length_le
    simp at hlen
    omega
  · simpa using hc

theorem dropWhile_dropTrailing_dropWhile {p : Char → Bool} (l : List Char) :
    (dropTrailing p (l.dropWhile p)).dropWhile p = dropTrailing p (l.dropWhile p) := by
  cases h : dropTrailing p (l.dropWhile p) with
  | nil => rfl
  | cons c t =>
    have hpre : dropTrailing p (l.dropWhile p) <+: l.dropWhile p := dropTrailing_prefix _
    rw [h] at hpre
    obtain ⟨rest, hrest⟩ := hpre
    have hc : p c = false := dropWhile_head_false (l := l) (by rw [← hrest]; rfl)
    exact List.dropWhile_cons_of_neg (by simp [hc])

theorem jsTrimList_idem (l : List Char) : jsTrimList (jsTrimList l) = jsTrimList l := by
  unfold jsTrimList
  rw [dropWhile_dropTrailing_dropWhile, dropTrailing_idem]

theorem jsTrim_idem (s : String) : jsTrim (jsTrim s) = jsTrim s := by
  show String.mk (jsTrimList (jsTrim s).data) = jsTrim s
  have : (jsTrim s).data = jsTrimList s.data := rfl
  rw [this, jsTrimList_idem]
  rfl


theorem matchNumCore_cons (c : Char) (t : List Char) :
    matchNumCore (c :: t) =
      if isDigitComma c = true then matchNumTail ((c :: t).dropWhile isDigitComma)
      else false := by
  simp [matchNumCore]

theorem matchNumCore_digits_dash (ds rest : List Char) (hne : ds ≠ [])
    (hd : ∀ c ∈ ds, isDigitChar c = true) :
    matchNumCore (ds ++ '-' :: rest) = false := by
  cases ds with
  | nil => exact absurd rfl hne
  | cons c t =>
    have hc := hd c (List.mem_cons_self c t)
    have hcomma : isDigitComma c = true := digit_isDigitComma c hc
    have hdrop : ((c :: t) ++ '-' :: rest).dropWhile isDigitComma = '-' :: rest := by
      have h1 : ((c :: t) ++ '-' :: rest).dropWhile isDigitComma
          = ('-' :: rest).dropWhile isDigitComma :=
        List.dropWhile_append_of_pos (fun a ha => digit_isDigitComma a (hd a ha))
      have h2 : ('-' :: rest).dropWhile isDigitComma = '-' :: rest :=
        List.dropWhile_cons_of_neg (by decide)
      rw [h1, h2]
    rw [List.cons_append, matchNumCore_cons, if_pos hcomma, ← List.cons_append, hdrop]
    simp [matchNumTail]

theorem matchNumRegex_digit_head (c : Char) (t : List Char) (hc : isDigitChar c = true) :
    matchNumRegex (c :: t) = matchNumCore (c :: t) := by
  have hf := digitChar_classes c hc
  simp only [matchNumRegex, hf.2.1, Bool.false_eq_true, if_false]
  rw [List.dropWhile_cons_of_neg (by simp [hf.1])]
  simp [hf.2.2.1]

theorem matchNumRegex_dash_digit (c : Char) (t : List Char) (hc : isDigitChar c = true) :
    matchNumRegex ('-' :: c :: t) = matchNumCore (c :: t) := by
  have hf := digitChar_classes c hc
  have h1 : isCurrencyChar '-' = false := by decide
  simp only [matchNumRegex, h1, Bool.false_eq_true, if_false]
  rfl

/-- Unfolded character data of an ISO date string. -/
theorem isoDate_data (ms : Int) :
    (isoDateOfMs ms).data =
      (if (civilFromDays (ms.fdiv 86400000)).1 < 0 then ['-'] else []) ++
      ((padNat 4 (civilFromDays (ms.fdiv 86400000)).1.natAbs).data ++
      '-' :: ((padNat 2 (civilFromDays (ms.fdiv 86400000)).2.1).data ++
      '-' :: (padNat 2 (civilFromDays (ms.fdiv 86400000)).2.2).data)) := by
  show (padInt 4 _ ++ "-" ++ padNat 2 _ ++ "-" ++ padNat 2 _).data = _
  unfold padInt
  by_cases h : (civilFromDays (ms.fdiv 86400000)).1 < 0
  · rw [if_pos h, if_pos h]
    show ("-" ++ padNat 4 _).data ++ "-".data ++ _ ++ "-".data ++ _ = _
    show ("-".data ++ (padNat 4 _).data) ++ "-".data ++ _ ++ "-".data ++ _ = _
    simp [padNat]
  · rw [if_neg h, if_neg h]
    show ("" ++ padNat 4 _).data ++ "-".data ++ _ ++ "-".data ++ _ = _
    show ("".data ++ (padNat 4 _).data) ++ "-".data ++ _ ++ "-".data ++ _ = _
    simp [padNat]

theorem isoDate_chars (ms : Int) :
    ∀ c ∈ (isoDateOfMs ms).data, isDigitChar c = true ∨ c = '-' := by
  intro c hc
  rw [isoDate_data] at hc
  rcases List.mem_append.mp hc with h | h
  · right
    rcases Decidable.em ((civilFromDays (ms.fdiv 86400000)).1 < 0) with hneg | hneg
    · rw [if_pos hneg] at h; simpa using h
    · rw [if_neg hneg] at h; simp at h
  · rcases List.mem_append.mp h with h | h
    · left; exact padNat_digits _ _ c h
    · rcases List.mem_cons.mp h with h | h
      · right; exact h
      · rcases List.mem_append.mp h with h | h
        · left; exact padNat_digits _ _ c h
        · rcases List.mem_cons.mp h with h | h
          · right; exact h
          · left; exact padNat_digits _ _ c h

theorem isoDate_no_ws (ms : Int) : ∀ c ∈ (isoDateOfMs ms).data, isJSWS c = false := by
  intro c hc
  rcases isoDate_chars ms c hc with h | h
  · exact (digitChar_classes c h).1
  · subst h; decide

theorem isoDate_trim (ms : Int) : jsTrim (isoDateOfMs ms) = isoDateOfMs ms :=
  jsTrim_eq_self_of_all (isoDate_no_ws ms)

theorem isoDate_ne_empty (ms : Int) : isoDateOfMs ms ≠ "" := by
  intro h
  have hdata : (isoDateOfMs ms).data = [] := by rw [h]
  rw [isoDate_data] at hdata
  rcases List.append_eq_nil.mp hdata with ⟨-, h1⟩
  rcases List.append_eq_nil.mp h1 with ⟨h2, -⟩
  exact padNat_ne_nil _ _ h2

theorem isoDate_not_matchNum (ms : Int) :
    matchNumRegex (isoDateOfMs ms).data = false := by
  rw [isoDate_data]
  set y := (civilFromDays (ms.fdiv 86400000)).1 with hy
  set rest := '-' :: ((padNat 2 (civilFromDays (ms.fdiv 86400000)).2.1).data ++
      '-' :: (padNat 2 (civilFromDays (ms.fdiv 86400000)).2.2).data) with hrest
  have hp4d : ∀ c ∈ (padNat 4 y.natAbs).data, isDigitChar c = true := padNat_digits 4 y.natAbs
  obtain ⟨c, t, hct⟩ : ∃ c t, (padNat 4 y.natAbs).data = c :: t := by
    cases h : (padNat 4 y.natAbs).data with
    | nil => exact absurd h (padNat_ne_nil 4 y.natAbs)
    | cons c t => exact ⟨c, t, rfl⟩
  have hcd : isDigitChar c = true := hp4d c (by rw [hct]; exact List.mem_cons_self c t)
  have hcore : matchNumCore (c :: (t ++ rest)) = false := by
    rw [← List.cons_append, ← hct]
    exact matchNumCore_digits_dash _ _ (padNat_ne_nil 4 y.natAbs) hp4d
  by_cases hneg : y < 0
  · rw [if_pos hneg, hct]
    show matchNumRegex ('-' :: (c :: (t ++ rest))) = false
    rw [matchNumRegex_dash_digit c (t ++ rest) hcd]
    exact hcore
  · rw [if_neg hneg, hct]
    show matchNumRegex (c :: (t ++ rest)) = false
    rw [matchNumRegex_digit_head c (t ++ rest) hcd]
    exact hcore

/-! ## Normalizer fixed points -/

theorem band_iff (q : Rat) : isPotentialExcelDate q = true ↔ 20000 < q ∧ q < 60000 := by
  simp [isPotentialExcelDate, Bool.and_eq_true, decide_eq_true_eq]

theorem excelDate_band (q : Rat) (h1 : 20000 < q) (h2 : q < 60000) :
    excelDateToJSDate q = isoDateOfMs (jsRound ((q - 25569) * 86400 * 1000)) := by
  unfold excelDateToJSDate
  rw [if_neg]
  rintro (h | h) <;> linarith

theorem clean_date_string_fixed (ms : Int) :
    cleanAndFormatValue (.str (isoDateOfMs ms)) = .str (isoDateOfMs ms) := by
  simp [cleanAndFormatValue, isoDate_ne_empty ms, isoDate_trim ms, isoDate_not_matchNum ms]

/-- Shared evaluation: `"45000"` parses to the number `45000`. -/
theorem clean_str_45000 : cleanAndFormatValue (.str "45000") = .num 45000 := by
  have hsplit : parseFloatSplit "45000" = ⟨false, ['4', '5', '0', '0', '0'], [], false, []⟩ := by
    decide
  have hpf : parseFloat "45000" = some 45000 := by simp [parseFloat, hsplit, digitsToNat]
  have htrim : jsTrim "45000" = "45000" := by decide
  have hstrip : stripNonNum "45000" = "45000" := by decide
  have hmatch : matchNumRegex ("45000" : String).data = true := by decide
  have hne : ("45000" : String) ≠ "" := by decide
  simp [cleanAndFormatValue, hne, htrim, hstrip, hmatch, hpf]

/-- Shared evaluation: the number `45000` is in the date band and decodes
to the date `2023-03-15`. -/
theorem clean_num_45000 : cleanAndFormatValue (.num 45000) = .str "2023-03-15" := by
  have hband : isPotentialExcelDate 45000 = true := by decide
  have hguard : ¬((45000 : Rat) < 1 ∨ (45000 : Rat) > 100000) := by decide
  have hr : jsRound (((45000 : Rat) - 25569) * 86400 * 1000) = 1678838400000 := by
    norm_num [jsRound]
  have hiso : isoDateOfMs 1678838400000 = "2023-03-15" := by decide
  have hlt1 : ¬((45000 : Rat) < 1) := by decide
  have hlt2 : ¬((100000 : Rat) < 45000) := by decide
  simp [cleanAndFormatValue, hband, excelDateToJSDate, hlt1, hlt2, hr, hiso]

/-- Shared evaluation: the string `"5"` parses to the number `5`. -/
theorem clean_str_5 : cleanAndFormatValue (.str "5") = .num 5 := by
  have hsplit : parseFloatSplit "5" = ⟨false, ['5'], [], false, []⟩ := by decide
  have hpf : parseFloat "5" = some 5 := by simp [parseFloat, hsplit, digitsToNat]
  have htrim : jsTrim "5" = "5" := by decide
  have hstrip : stripNonNum "5" = "5" := by decide
  have hmatch : matchNumRegex ("5" : String).data = true := by decide
  have hne : ("5" : String) ≠ "" := by decide
  simp [cleanAndFormatValue, hne, htrim, hstrip, hmatch, hpf]

/-- C1 (amended): the normalizer is idempotent on every value whose
normalization is not a number inside the exclusive date band
`(20000, 60000)`. -/
theorem normalize_idempotent_off_dateband (x : JSValue)
    (h : ∀ q : Rat, cleanAndFormatValue x = .num q → ¬(20000 < q ∧ q < 60000)) :
    cleanAndFormatValue (cleanAndFormatValue x) = cleanAndFormatValue x := by
  cases x with
  | undef => rfl
  | null => rfl
  | bool b => rfl
  | num q =>
    by_cases hband : isPotentialExcelDate q = true
    · have hb := (band_iff q).mp hband
      have hdate : cleanAndFormatValue (.num q) = .str (excelDateToJSDate q) := by
        simp [cleanAndFormatValue, hband]
      rw [hdate, excelDate_band q hb.1 hb.2]
      exact clean_date_string_fixed _
    · have hkeep : cleanAndFormatValue (.num q) = .num q := by
        simp [cleanAndFormatValue, hband]
      rw [hkeep, hkeep]
  | str s =>
    by_cases hs : s = ""
    · subst hs; rfl
    · by_cases hm : matchNumRegex (jsTrim s).data = true
      · cases hp : parseFloat (stripNonNum (jsTrim s)) with
        | some q =>
          have hval : cleanAndFormatValue (.str s) = .num q := by
            simp [cleanAndFormatValue, hs, hm, hp]
          have hnb : ¬(20000 < q ∧ q < 60000) := h q hval
          have hband : isPotentialExcelDate q = false := by
            rw [← Bool.not_eq_true]
            intro hh
            exact hnb ((band_iff q).mp hh)
          rw [hval]
          simp [cleanAndFormatValue, hband]
        | none =>
          have hval : cleanAndFormatValue (.str s) = .str (jsTrim s) := by
            simp [cleanAndFormatValue, hs, hm, hp]
          rw [hval]
          by_cases ht : jsTrim s = ""
          · simp [cleanAndFormatValue, ht]
          · simp [cleanAndFormatValue, ht, jsTrim_idem, hm, hp]
      · have hval : cleanAndFormatValue (.str s) = .str (jsTrim s) := by
          simp [cleanAndFormatValue, hs, hm]
        rw [hval]
        by_cases ht : jsTrim s = ""
        · simp [cleanAndFormatValue, ht]
        · simp [cleanAndFormatValue, ht, jsTrim_idem, hm]

/-- Witness for C1 (amended) at the concrete input `" hello "`. -/
theorem normalize_idempotent_off_dateband_witness :
    cleanAndFormatValue (cleanAndFormatValue (.str " hello ")) =
      cleanAndFormatValue (.str " hello ") := by
  apply normalize_idempotent_off_dateband
  intro q hq
  have hv : cleanAndFormatValue (.str " hello ") = .str "hello" := by decide
  rw [hv] at hq
  exact absurd hq (by simp)

/-- Counterexample to C1 as stated: the string `"45000"` normalizes to the
number `45000`, which lies in the date band, so a second normalization
turns it into a date string. -/
theorem normalize_not_idempotent :
    cleanAndFormatValue (cleanAndFormatValue (.str "45000")) ≠
      cleanAndFormatValue (.str "45000") := by
  rw [clean_str_45000, clean_num_45000]
  simp

/-- C7 (amended): numbers strictly inside `(20000, 60000)` decode as UTC
date strings via the `serial - 25569` day offset; `45292` becomes
`"2024-01-01"`; the number `5` stays the number `5`, and the string `"5"`
is parsed to the number `5` (not kept as a string). -/
theorem date_band_normalization :
    (∀ q : Rat, 20000 < q → q < 60000 →
      cleanAndFormatValue (.num q) =
        .str (isoDateOfMs (jsRound ((q - 25569) * 86400 * 1000)))) ∧
    cleanAndFormatValue (.num 45292) = .str "2024-01-01" ∧
    cleanAndFormatValue (.num 5) = .num 5 ∧
    cleanAndFormatValue (.str "5") = .num 5 := by
  refine ⟨?_, ?_, by decide, clean_str_5⟩
  · intro q h1 h2
    have hband : isPotentialExcelDate q = true := (band_iff q).mpr ⟨h1, h2⟩
    simp [cleanAndFormatValue, hband, excelDate_band q h1 h2]
  · have hband : isPotentialExcelDate 45292 = true := by decide
    have hguard : ¬((45292 : Rat) < 1 ∨ (45292 : Rat) > 100000) := by decide
    have hr : jsRound (((45292 : Rat) - 25569) * 86400 * 1000) = 1704067200000 := by
      norm_num [jsRound]
    have hiso : isoDateOfMs 1704067200000 = "2024-01-01" := by decide
    have hlt1 : ¬((45292 : Rat) < 1) := by decide
    have hlt2 : ¬((100000 : Rat) < 45292) := by decide
    simp [cleanAndFormatValue, hband, excelDateToJSDate, hlt1, hlt2, hr, hiso]

/-- Witness for C7 (amended): the band rule applied at the serial `45292`. -/
theorem date_band_normalization_witness :
    cleanAndFormatValue (.num 45292) =
      .str (isoDateOfMs (jsRound (((45292 : Rat) - 25569) * 86400 * 1000))) :=
  date_band_normalization.1 45292 (by decide) (by decide)

/-- Counterexample to C7 as stated: the value `5` does not remain the
literal string `"5"` — the number `5` stays a number, and the string `"5"`
is parsed to the number `5`. -/
theorem value_five_not_string :
    cleanAndFormatValue (.num 5) ≠ .str "5" ∧
      cleanAndFormatValue (.str "5") ≠ .str "5" := by
  constructor
  · decide
  · rw [clean_str_5]; simp

theorem lookup_append_left_none {l1 l2 : List (String × Nat)} {k : String}
    (h : l1.lookup k = none) : (l1 ++ l2).lookup k = l2.lookup k := by
  induction l1 with
  | nil => rfl
  | cons p t ih =>
    obtain ⟨k', v⟩ := p
    rw [List.cons_append, List.lookup_cons]
    rw [List.lookup_cons] at h
    cases hk : (k == k') with
    | true => rw [hk] at h; simp at h
    | false => rw [hk] at h; exact ih h

theorem lookup_assocSet (counts : List (String × Nat)) (k k2 : String) (m : Nat) :
    (assocSet counts k m).lookup k2 =
      if k2 = k then (counts.lookup k).map (fun _ => m) else counts.lookup k2 := by
  induction counts with
  | nil => simp [assocSet]
  | cons p t ih =>
    obtain ⟨k', v⟩ := p
    simp only [assocSet, List.map_cons] at *
    by_cases h1 : k' = k
    · subst h1
      by_cases h2 : k2 = k'
      · subst h2
        simp [List.lookup_cons]
      · have hbeq : (k2 == k') = false := beq_eq_false_iff_ne.mpr h2
        simp [List.lookup_cons, hbeq, ih, if_neg h2]
    · rw [if_neg h1]
      by_cases h2 : k2 = k'
      · subst h2
        have hne : ¬k2 = k := h1
        simp [List.lookup_cons, if_neg hne]
      · have hbeq : (k2 == k') = false := beq_eq_false_iff_ne.mpr h2
        have hbeq2 : (k == k') = false := beq_eq_false_iff_ne.mpr (fun hh => h1 hh.symm)
        simp only [List.lookup_cons, hbeq, hbeq2, ih]

theorem lookup_append (l1 l2 : List (String × Nat)) (k : String) :
    (l1 ++ l2).lookup k =
      match l1.lookup k with
      | some v => some v
      | none => l2.lookup k := by
  induction l1 with
  | nil => rfl
  | cons p t ih =>
    obtain ⟨k', v⟩ := p
    rw [List.cons_append, List.lookup_cons, List.lookup_cons]
    cases hk : (k == k') with
    | true => rfl
    | false => exact ih

theorem string_append_ne_empty_left {a : String} (b : String) (ha : a ≠ "") :
    a ++ b ≠ "" := by
  intro h
  have hd : (a ++ b).data = [] := by rw [h]
  have hd2 : a.data ++ b.data = [] := hd
  rcases List.append_eq_nil.mp hd2 with ⟨h1, -⟩
  apply ha
  cases a with
  | mk d => cases h1; rfl

theorem cleanHeaderOf_ne_empty (h : String) : cleanHeaderOf h ≠ "" := by
  unfold cleanHeaderOf
  by_cases ho : jsTrim (if h = "" then "Column" else h) = ""
  · simp [ho]
  · simp [ho]

theorem makeHeadersUniqueGo_length (l : List String) :
    ∀ counts, (makeHeadersUniqueGo counts l).length = l.length := by
  induction l with
  | nil => intro counts; rfl
  | cons h t ih =>
    intro counts
    simp only [makeHeadersUniqueGo]
    cases hcl : counts.lookup (cleanHeaderOf h) with
    | none => simp only [List.length_cons, ih]
    | some n => simp only [List.length_cons, ih]

theorem makeHeadersUniqueGo_ne_empty (l : List String) :
    ∀ counts, ∀ s ∈ makeHeadersUniqueGo counts l, s ≠ "" := by
  induction l with
  | nil => intro counts s hs; simp [makeHeadersUniqueGo] at hs
  | cons h t ih =>
    intro counts s
    simp only [makeHeadersUniqueGo]
    cases hcl : counts.lookup (cleanHeaderOf h) with
    | none =>
      intro hs
      rcases List.mem_cons.mp hs with rfl | hmem
      · exact cleanHeaderOf_ne_empty h
      · exact ih _ s hmem
    | some n =>
      intro hs
      rcases List.mem_cons.mp hs with rfl | hmem
      · exact string_append_ne_empty_left _
          (string_append_ne_empty_left _ (cleanHeaderOf_ne_empty h))
      · exact ih _ s hmem

theorem makeHeadersUniqueGo_eq_spec (l : List String) :
    ∀ (processed : List String) (counts : List (String × Nat)),
      (∀ k : String, counts.lookup k =
        if processed.count k = 0 then none else some (processed.count k - 1)) →
      makeHeadersUniqueGo counts l = headerSpecGo processed l := by
  induction l with
  | nil => intro _ _ _; rfl
  | cons h t ih =>
    intro processed counts hinv
    simp only [makeHeadersUniqueGo, headerSpecGo]
    have hc := hinv (cleanHeaderOf h)
    by_cases h0 : processed.count (cleanHeaderOf h) = 0
    · rw [if_pos h0] at hc
      simp only [hc, if_pos h0]
      congr 1
      apply ih
      intro k
      rw [lookup_append]
      by_cases hk : k = cleanHeaderOf h
      · rw [hk, hc]
        have hcount : (processed ++ [cleanHeaderOf h]).count (cleanHeaderOf h) = 1 := by
          simp [List.count_append, h0]
        simp [hcount, List.lookup_cons]
      · have hbeq2 : (cleanHeaderOf h == k) = false :=
          beq_eq_false_iff_ne.mpr (fun hh => hk hh.symm)
        have hcount : (processed ++ [cleanHeaderOf h]).count k = processed.count k := by
          simp [List.count_append, List.count_cons, hbeq2]
        rw [hcount, ← hinv k]
        have hbeq : (k == cleanHeaderOf h) = false := beq_eq_false_iff_ne.mpr hk
        cases counts.lookup k with
        | none => simp [List.lookup_cons, hbeq]
        | some v => rfl
    · rw [if_neg h0] at hc
      have hsucc : processed.count (cleanHeaderOf h) - 1 + 1 =
          processed.count (cleanHeaderOf h) :=
        Nat.succ_pred_eq_of_pos (Nat.pos_of_ne_zero h0)
      simp only [hc, hsucc, if_neg h0]
      congr 1
      apply ih
      intro k
      rw [lookup_assocSet]
      by_cases hk : k = cleanHeaderOf h
      · rw [if_pos hk, hk, hc]
        have hcount : (processed ++ [cleanHeaderOf h]).count (cleanHeaderOf h) =
            processed.count (cleanHeaderOf h) + 1 := by
          simp [List.count_append]
        simp [hcount, hsucc]
      · rw [if_neg hk]
        have hbeq2 : (cleanHeaderOf h == k) = false :=
          beq_eq_false_iff_ne.mpr (fun hh => hk hh.symm)
        have hcount : (processed ++ [cleanHeaderOf h]).count k = processed.count k := by
          simp [List.count_append, List.count_cons, hbeq2]
        rw [hcount, hinv k]

/-- C5 (amended): `register` returns a same-length sequence of non-empty
names, renaming each header by its occurrence count — the first occurrence
of a cleaned name unsuffixed, the `N`-th repeat suffixed `_N` — but the
outputs are not always pairwise distinct (an input header can collide with
a generated suffixed name). -/
theorem register_header_props (hs : List String) :
    (makeHeadersUnique hs).length = hs.length ∧
    (∀ s ∈ makeHeadersUnique hs, s ≠ "") ∧
    makeHeadersUnique hs = headerSpec hs := by
  refine ⟨makeHeadersUniqueGo_length hs [], makeHeadersUniqueGo_ne_empty hs [], ?_⟩
  exact makeHeadersUniqueGo_eq_spec hs [] [] (fun k => by simp)

/-- Witness for C5 (amended) at the concrete input `["A", "A"]`. -/
theorem register_header_props_witness : ("A" : String) ≠ "" :=
  (register_header_props ["A", "A"]).2.1 "A" (by decide)

/-- Counterexample to C5 as stated: an input colliding with a generated
suffixed name yields duplicate outputs. -/
theorem register_not_pairwise_distinct :
    makeHeadersUnique ["A", "A_1", "A"] = ["A", "A_1", "A_1"] ∧
    ¬(makeHeadersUnique ["A", "A_1", "A"]).Nodup := by
  constructor
  · decide
  · decide

/-! ## Property-record lemmas (`setProp` and folds of it) -/

theorem lookup_mapIf {β : Type} (l : List (String × β)) (k k2 : String) (v : β) :
    (l.map (fun p => if p.1 = k then (p.1, v) else p)).lookup k2 =
      if k2 = k then (l.lookup k).map (fun _ => v) else l.lookup k2 := by
  induction l with
  | nil => simp
  | cons p t ih =>
    obtain ⟨k', w⟩ := p
    simp only [List.map_cons] at *
    by_cases h1 : k' = k
    · subst h1
      by_cases h2 : k2 = k'
      · subst h2
        simp [List.lookup_cons]
      · have hbeq : (k2 == k') = false := beq_eq_false_iff_ne.mpr h2
        simp [List.lookup_cons, hbeq, ih, if_neg h2]
    · rw [if_neg h1]
      by_cases h2 : k2 = k'
      · subst h2
        have hne : ¬k2 = k := h1
        simp [List.lookup_cons, if_neg hne]
      · have hbeq : (k2 == k') = false := beq_eq_false_iff_ne.mpr h2
        have hbeq2 : (k == k') = false := beq_eq_false_iff_ne.mpr (fun hh => h1 hh.symm)
        simp only [List.lookup_cons, hbeq, hbeq2, ih]

theorem lookup_append_gen {β : Type} (l1 l2 : List (String × β)) (k : String) :
    (l1 ++ l2).lookup k =
      match l1.lookup k with
      | some v => some v
      | none => l2.lookup k := by
  induction l1 with
  | nil => rfl
  | cons p t ih =>
    obtain ⟨k', v⟩ := p
    rw [List.cons_append, List.lookup_cons, List.lookup_cons]
    cases hk : (k == k') with
    | true => rfl
    | false => exact ih

theorem lookup_setProp_same (r : JSRow) (h : String) (v : JSValue) :
    (setProp r h v).lookup h = some v := by
  unfold setProp
  by_cases hs : (r.lookup h).isSome
  · rw [if_pos hs, lookup_mapIf, if_pos rfl]
    cases hr : r.lookup h with
    | none => rw [hr] at hs; simp at hs
    | some w => simp
  · rw [if_neg hs, lookup_append_gen]
    cases hr : r.lookup h with
    | none => simp [List.lookup_cons]
    | some w => rw [hr] at hs; simp at hs

theorem lookup_setProp_other (r : JSRow) (h h2 : String) (v : JSValue)
    (hne : h2 ≠ h) : (setProp r h v).lookup h2 = r.lookup h2 := by
  unfold setProp
  by_cases hs : (r.lookup h).isSome
  · rw [if_pos hs, lookup_mapIf, if_neg hne]
  · rw [if_neg hs, lookup_append_gen]
    cases hr : r.lookup h2 with
    | none =>
      have hbeq : (h2 == h) = false := beq_eq_false_iff_ne.mpr hne
      simp [List.lookup_cons, hbeq]
    | some w => rfl

theorem getProp_setProp_same (r : JSRow) (h : String) (v : JSValue) :
    getProp (setProp r h v) h = v := by
  unfold getProp
  rw [lookup_setProp_same]
  rfl

theorem getProp_setProp_other (r : JSRow) (h h2 : String) (v : JSValue)
    (hne : h2 ≠ h) : getProp (setProp r h v) h2 = getProp r h2 := by
  unfold getProp
  rw [lookup_setProp_other r h h2 v hne]

theorem lookup_foldl_setProp_not_mem {α : Type} (g : String × α → JSValue)
    (m : List (String × α)) (h : String) (hn : ∀ p ∈ m, p.1 ≠ h) :
    ∀ r : JSRow, (m.foldl (fun acc p => setProp acc p.1 (g p)) r).lookup h = r.lookup h := by
  induction m with
  | nil => intro r; rfl
  | cons q t ih =>
    intro r
    rw [List.foldl_cons]
    rw [ih (fun p hp => hn p (List.mem_cons_of_mem q hp))]
    exact lookup_setProp_other _ _ _ _ (fun hh => hn q (List.mem_cons_self q t) hh.symm)

theorem lookup_foldl_setProp_mem {α : Type} (g : String × α → JSValue)
    (m : List (String × α)) (tf : String) (ids : α)
    (hmem : (tf, ids) ∈ m) (hnodup : (m.map Prod.fst).Nodup) :
    ∀ r : JSRow, (m.foldl (fun acc p => setProp acc p.1 (g p)) r).lookup tf =
      some (g (tf, ids)) := by
  induction m with
  | nil => simp at hmem
  | cons q t ih =>
    intro r
    rw [List.foldl_cons]
    rcases List.mem_cons.mp hmem with heq | hmem2
    · subst heq
      have htail : ∀ p ∈ t, p.1 ≠ tf := by
        intro p hp hcontra
        have : tf ∈ t.map Prod.fst := by
          rw [← hcontra]
          exact List.mem_map_of_mem Prod.fst hp
        rw [List.map_cons] at hnodup
        exact (List.nodup_cons.mp hnodup).1 this
      rw [lookup_foldl_setProp_not_mem g t tf htail]
      exact lookup_setProp_same _ _ _
    · have hnodup2 : (t.map Prod.fst).Nodup := by
        rw [List.map_cons] at hnodup
        exact (List.nodup_cons.mp hnodup).2
      exact ih hmem2 hnodup2 _

/-! ## Stack merge lemmas -/

theorem foldl_append_flatMap {α β : Type} (g : α → List β) :
    ∀ (l : List α) (a : List β),
      l.foldl (fun acc x => acc ++ g x) a = a ++ l.flatMap g := by
  intro l
  induction l with
  | nil => intro a; simp
  | cons x t ih =>
    intro a
    rw [List.foldl_cons, ih, List.flatMap_cons, List.append_assoc]

theorem stackData_eq_flatMap (sheets : List SheetData) (m : Mapping) :
    stackData sheets m =
      sheets.flatMap (fun sheet =>
        sheet.rows.enum.map (fun p => stackRowOf m sheet p.1 p.2)) := by
  unfold stackData
  rw [foldl_append_flatMap]
  rfl

theorem stackData_length (sheets : List SheetData) (m : Mapping) :
    (stackData sheets m).length = (sheets.map (fun sh => sh.rows.length)).sum := by
  rw [stackData_eq_flatMap]
  induction sheets with
  | nil => rfl
  | cons sh t ih =>
    rw [List.flatMap_cons, List.length_append, List.map_cons, List.sum_cons, ih]
    simp

/-- C6: the stack (vertical) merge is the concatenation, in sheet order,
of the per-sheet row transformations; its length is the sum of the row
counts; each output row carries `id = fileName-sheetName-index`, the
sheet's provenance, and for every mapped field the value
`normalize(resolveValue(...))`; `mergeData` with a vertical config ignores
`removeDuplicates` entirely (no deduplication). -/
theorem stack_merge_props (sheets : List SheetData) (m : Mapping) (jk : String)
    (jt : JoinType) (rd : Bool) :
    mergeData sheets m (some ⟨.vertical, jk, jt, rd⟩) = stackData sheets m ∧
    (stackData sheets m).length = (sheets.map (fun sh => sh.rows.length)).sum ∧
    stackData sheets m =
      sheets.flatMap (fun sheet =>
        sheet.rows.enum.map (fun p => stackRowOf m sheet p.1 p.2)) ∧
    ∀ sheet i row,
      getProp (stackRowOf m sheet i row) "_sourceFile" = .str sheet.fileName ∧
      getProp (stackRowOf m sheet i row) "_sourceSheet" = .str sheet.sheetName ∧
      ((∀ p ∈ m, p.1 ≠ "id") →
        getProp (stackRowOf m sheet i row) "id" =
          .str (sheet.fileName ++ "-" ++ sheet.sheetName ++ "-" ++ natStr i)) ∧
      (∀ tf ids, (tf, ids) ∈ m → (m.map Prod.fst).Nodup →
        tf ≠ "_sourceFile" → tf ≠ "_sourceSheet" →
        getProp (stackRowOf m sheet i row) tf =
          cleanAndFormatValue (resolveValue sheet row ids)) := by
  refine ⟨rfl, stackData_length sheets m, stackData_eq_flatMap sheets m, ?_⟩
  intro sheet i row
  refine ⟨?_, ?_, ?_, ?_⟩
  · unfold stackRowOf
    rw [getProp_setProp_other _ _ _ _ (by decide), getProp_setProp_same]
  · unfold stackRowOf
    rw [getProp_setProp_same]
  · intro hid
    unfold stackRowOf getProp
    rw [lookup_setProp_other _ _ _ _ (by decide),
      lookup_setProp_other _ _ _ _ (by decide),
      lookup_foldl_setProp_not_mem
        (fun p => cleanAndFormatValue (resolveValue sheet row p.2)) m "id"
        (fun p hp => hid p hp)]
    rfl
  · intro tf ids hmem hnodup h1 h2
    unfold stackRowOf getProp
    rw [lookup_setProp_other _ _ _ _ h2, lookup_setProp_other _ _ _ _ h1,
      lookup_foldl_setProp_mem
        (fun p => cleanAndFormatValue (resolveValue sheet row p.2)) m tf ids hmem hnodup]
    rfl

/-- Witness for C6 at a one-sheet, one-row, one-field instance. -/
theorem stack_merge_props_witness :
    getProp (stackRowOf [("F", ["f::s::H"])]
        ⟨"f", "s", ["H"], [[("H", JSValue.str "x")]]⟩ 0 [("H", JSValue.str "x")]) "F" =
      cleanAndFormatValue (resolveValue ⟨"f", "s", ["H"], [[("H", JSValue.str "x")]]⟩
        [("H", JSValue.str "x")] ["f::s::H"]) :=
  ((stack_merge_props [⟨"f", "s", ["H"], [[("H", JSValue.str "x")]]⟩]
      [("F", ["f::s::H"])] "F" .outer true).2.2.2
    ⟨"f", "s", ["H"], [[("H", JSValue.str "x")]]⟩ 0 [("H", JSValue.str "x")]).2.2.2
    "F" ["f::s::H"] (by decide) (by decide) (by decide) (by decide)

/-- C10: a mapping candidate without `::` is matched against the rows of
every sheet (its resolution is sheet-independent), a candidate with `::`
is consulted only when the sheet matches its parsed
(fileName, sheetName), and a concrete delimiter-free candidate feeds rows
of two different sheets. -/
theorem bare_candidate_matches_all_sheets :
    (∀ (mId : String) (s1 s2 : SheetData) (row : JSRow), hasSep mId = false →
      resolveValue s1 row [mId] = resolveValue s2 row [mId]) ∧
    (∀ (mId : String) (sheet : SheetData) (row : JSRow) (rest : List String),
      hasSep mId = true →
      ¬((parseMappingId mId).fileName = sheet.fileName ∧
        (parseMappingId mId).sheetName = sheet.sheetName) →
      resolveValue sheet row (mId :: rest) = resolveValue sheet row rest) ∧
    getProp (stackRowOf [("F", ["H"])]
        ⟨"fa", "sa", ["H"], [[("H", JSValue.str "va")]]⟩ 0 [("H", JSValue.str "va")]) "F" =
      .str "va" ∧
    getProp (stackRowOf [("F", ["H"])]
        ⟨"fb", "sb", ["H"], [[("H", JSValue.str "vb")]]⟩ 0 [("H", JSValue.str "vb")]) "F" =
      .str "vb" := by
  refine ⟨?_, ?_, by decide, by decide⟩
  · intro mId s1 s2 row h
    simp [resolveValue, h]
  · intro mId sheet row rest h hne
    simp [resolveValue, h, hne]

/-- Witness for C10: the bare candidate `"H"` resolves identically on two
sheets with different identities. -/
theorem bare_candidate_matches_all_sheets_witness :
    resolveValue ⟨"fa", "sa", ["H"], []⟩ [("H", JSValue.str "v")] ["H"] =
      resolveValue ⟨"fb", "sb", ["H"], []⟩ [("H", JSValue.str "v")] ["H"] :=
  bare_candidate_matches_all_sheets.1 "H" ⟨"fa", "sa", ["H"], []⟩
    ⟨"fb", "sb", ["H"], []⟩ [("H", JSValue.str "v")] (by decide)

/-! ## Filter/split properties -/

/-- C8: the split filter returns a sublist of its input whose rows all
satisfy the predicate; under a numeric-typed comparison a row whose field
value does not parse as a number is excluded for every operator (as is
every row when the compare value itself does not parse); and string
comparisons only depend on the lowercased cell and compare strings, so
they are case-insensitive. -/
theorem filter_subset_and_semantics (rows : List JSRow) (f : String)
    (ty : ColumnType) (op : FilterOperator) (v : String) :
    (executeSplitFilter rows f ty op v).Sublist rows ∧
    (∀ r ∈ executeSplitFilter rows f ty op v, splitPred f ty op v r = true) ∧
    (∀ r ∈ rows, ty = .number → parseFloat (jsToString (getProp r f)) = none →
      r ∉ executeSplitFilter rows f ty op v) ∧
    (∀ r ∈ rows, ty = .number → parseFloat v = none →
      r ∉ executeSplitFilter rows f ty op v) ∧
    (∀ v2 : String, ty = .string → strToLower v = strToLower v2 →
      executeSplitFilter rows f ty op v = executeSplitFilter rows f ty op v2) := by
  refine ⟨List.filter_sublist rows, ?_, ?_, ?_, ?_⟩
  · intro r hr
    exact List.of_mem_filter hr
  · intro r _ hty hparse hmem
    have hp := List.of_mem_filter hmem
    subst hty
    rw [splitPred] at hp
    simp only [hparse] at hp
    exact absurd hp (by simp)
  · intro r _ hty hparse hmem
    have hp := List.of_mem_filter hmem
    subst hty
    rw [splitPred] at hp
    simp only [hparse] at hp
    revert hp
    cases parseFloat (jsToString (getProp r f)) <;> simp
  · intro v2 hty hlower
    subst hty
    unfold executeSplitFilter
    congr 1
    funext r
    simp only [splitPred, hlower]

/-- Witness for C8: a non-numeric cell is excluded under a numeric
comparison. -/
theorem filter_subset_and_semantics_witness :
    [("A", JSValue.str "abc")] ∉
      executeSplitFilter [[("A", JSValue.str "abc")]] "A" .number .gt "1" :=
  (filter_subset_and_semantics [[("A", JSValue.str "abc")]] "A" .number .gt "1").2.2.1
    [("A", JSValue.str "abc")] (by decide) rfl (by decide)

/-! ## Field-management lemmas -/

theorem lookup_recSet_same (m : Mapping) (k : String) (v : List String) :
    (recSet m k v).lookup k = some v := by
  unfold recSet
  by_cases hs : (m.lookup k).isSome
  · rw [if_pos hs, lookup_mapIf, if_pos rfl]
    cases hr : m.lookup k with
    | none => rw [hr] at hs; simp at hs
    | some w => simp
  · rw [if_neg hs, lookup_append_gen]
    cases hr : m.lookup k with
    | none => simp [List.lookup_cons]
    | some w => rw [hr] at hs; simp at hs

theorem lookup_recSet_other (m : Mapping) (k k2 : String) (v : List String)
    (hne : k2 ≠ k) : (recSet m k v).lookup k2 = m.lookup k2 := by
  unfold recSet
  by_cases hs : (m.lookup k).isSome
  · rw [if_pos hs, lookup_mapIf, if_neg hne]
  · rw [if_neg hs, lookup_append_gen]
    cases hr : m.lookup k2 with
    | none =>
      have hbeq : (k2 == k) = false := beq_eq_false_iff_ne.mpr hne
      simp [List.lookup_cons, hbeq]
    | some w => rfl

theorem lookup_recDelete_same (m : Mapping) (k : String) :
    (recDelete m k).lookup k = none := by
  unfold recDelete
  induction m with
  | nil => rfl
  | cons p t ih =>
    obtain ⟨k', v⟩ := p
    by_cases h : k' = k
    · subst h
      simp only [List.filter_cons]
      rw [if_neg (by simp)]
      exact ih
    · simp only [List.filter_cons]
      rw [if_pos (by simp [h])]
      have hbeq : (k == k') = false := beq_eq_false_iff_ne.mpr (fun hh => h hh.symm)
      rw [List.lookup_cons]
      simp only [hbeq]
      exact ih

theorem lookup_recDelete_other (m : Mapping) (k k2 : String) (hne : k2 ≠ k) :
    (recDelete m k).lookup k2 = m.lookup k2 := by
  unfold recDelete
  induction m with
  | nil => rfl
  | cons p t ih =>
    obtain ⟨k', v⟩ := p
    by_cases h : k' = k
    · subst h
      simp only [List.filter_cons]
      rw [if_neg (by simp)]
      have hbeq : (k2 == k') = false := beq_eq_false_iff_ne.mpr hne
      rw [List.lookup_cons]
      simp only [hbeq]
      exact ih
    · simp only [List.filter_cons]
      rw [if_pos (by simp [h])]
      rw [List.lookup_cons, List.lookup_cons]
      cases hk : (k2 == k') with
      | true => rfl
      | false => exact ih

/-- C9 (amended): adding a field with a duplicate (trimmed) name is a
no-op; add and remove preserve key uniqueness; and a rename to a fresh,
non-empty, different name preserves uniqueness, rewrites exactly the
renamed key in the field list, migrates the mapping entry from the old
key to the new key, and updates the join-key reference iff it pointed at
the old key.  (Rename performs no duplicate check, so renaming onto an
existing key is not a no-op — see the counterexample.) -/
theorem field_ops_key_uniqueness (st : MappingState) (name k oldKey newLabel : String) :
    ((∃ f ∈ st.fields, f.key = jsTrim name) → handleAddField st name = st) ∧
    ((st.fields.map FieldDefinition.key).Nodup →
      ((handleAddField st name).fields.map FieldDefinition.key).Nodup) ∧
    ((st.fields.map FieldDefinition.key).Nodup →
      ((handleRemoveField st k).fields.map FieldDefinition.key).Nodup) ∧
    (jsTrim newLabel ≠ "" → newLabel ≠ oldKey →
      (∀ f ∈ st.fields, f.key ≠ newLabel) →
      ((st.fields.map FieldDefinition.key).Nodup →
        ((handleRenameField st oldKey newLabel).fields.map FieldDefinition.key).Nodup) ∧
      (handleRenameField st oldKey newLabel).fields.map FieldDefinition.key =
        (st.fields.map FieldDefinition.key).map
          (fun x => if x = oldKey then newLabel else x) ∧
      (handleRenameField st oldKey newLabel).mapping.lookup newLabel =
        some ((st.mapping.lookup oldKey).getD []) ∧
      (handleRenameField st oldKey newLabel).mapping.lookup oldKey =
        none ∧
      (∀ k2, k2 ≠ oldKey → k2 ≠ newLabel →
        (handleRenameField st oldKey newLabel).mapping.lookup k2 =
          st.mapping.lookup k2) ∧
      (handleRenameField st oldKey newLabel).joinKey =
        (if st.joinKey = oldKey then newLabel else st.joinKey)) := by
  refine ⟨?_, ?_, ?_, ?_⟩
  · rintro ⟨f, hf, hkey⟩
    unfold handleAddField
    by_cases hempty : jsTrim name = ""
    · rw [if_pos hempty]
    · rw [if_neg hempty, if_pos]
      exact List.any_eq_true.mpr ⟨f, hf, by simp [hkey]⟩
  · intro hnodup
    unfold handleAddField
    by_cases hempty : jsTrim name = ""
    · rw [if_pos hempty]; exact hnodup
    · rw [if_neg hempty]
      by_cases hdup : st.fields.any (fun f => f.key = jsTrim name)
      · rw [if_pos hdup]; exact hnodup
      · rw [if_neg hdup]
        simp only [List.map_append, List.map_cons, List.map_nil]
        rw [List.nodup_append]
        refine ⟨hnodup, List.nodup_singleton _, ?_⟩
        intro x hx
        simp only [List.mem_singleton]
        intro hxeq
        subst hxeq
        rcases List.mem_map.mp hx with ⟨f, hf, hkey⟩
        exact hdup (List.any_eq_true.mpr ⟨f, hf, by simp [hkey]⟩)
  · intro hnodup
    unfold handleRemoveField
    have : (st.fields.filter (fun f => f.key ≠ k)).map FieldDefinition.key |>.Sublist
        (st.fields.map FieldDefinition.key) :=
      (List.filter_sublist st.fields).map FieldDefinition.key
    exact this.nodup hnodup
  · intro hne hdiff hfresh
    unfold handleRenameField
    rw [if_neg (by simp [hne, hdiff])]
    have hkeys : (st.fields.map (fun f =>
        if f.key = oldKey then { f with label := newLabel, key := newLabel } else f)).map
          FieldDefinition.key =
        (st.fields.map FieldDefinition.key).map
          (fun x => if x = oldKey then newLabel else x) := by
      rw [List.map_map, List.map_map]
      apply List.map_congr_left
      intro f _
      by_cases hf : f.key = oldKey
      · simp [hf]
      · simp [hf]
    refine ⟨?_, hkeys, ?_, ?_, ?_, rfl⟩
    · intro hnodup
      rw [hkeys]
      apply List.Nodup.map_on ?_ hnodup
      intro x hx y hy hxy
      have hxfresh : x ≠ newLabel := by
        rcases List.mem_map.mp hx with ⟨f, hf, hkey⟩
        rw [← hkey]; exact hfresh f hf
      have hyfresh : y ≠ newLabel := by
        rcases List.mem_map.mp hy with ⟨f, hf, hkey⟩
        rw [← hkey]; exact hfresh f hf
      by_cases hxo : x = oldKey <;> by_cases hyo : y = oldKey
      · rw [hxo, hyo]
      · rw [if_pos hxo, if_neg hyo] at hxy
        exact absurd hxy.symm hyfresh
      · rw [if_neg hxo, if_pos hyo] at hxy
        exact absurd hxy hxfresh
      · rw [if_neg hxo, if_neg hyo] at hxy
        exact hxy
    · exact lookup_recSet_same _ _ _
    · rw [lookup_recSet_other _ _ _ _ (fun hh => hdiff hh.symm)]
      exact lookup_recDelete_same _ _
    · intro k2 h2o h2n
      rw [lookup_recSet_other _ _ _ _ h2n, lookup_recDelete_other _ _ _ h2o]

/-- Witness for C9 (amended): adding a duplicate field name is a no-op on
a concrete state. -/
theorem field_ops_key_uniqueness_witness :
    handleAddField ⟨[⟨"A", "A", .string⟩], [("A", [])], "A"⟩ "A" =
      ⟨[⟨"A", "A", .string⟩], [("A", [])], "A"⟩ :=
  (field_ops_key_uniqueness ⟨[⟨"A", "A", .string⟩], [("A", [])], "A"⟩
      "A" "B" "A" "B").1 ⟨⟨"A", "A", .string⟩, by decide, by decide⟩

/-- Counterexample to C9 as stated: renaming field `"A"` to the existing
key `"B"` is not a no-op and breaks key uniqueness (no duplicate check in
`handleRenameField`). -/
theorem rename_breaks_key_uniqueness :
    handleRenameField
        ⟨[⟨"A", "A", .string⟩, ⟨"B", "B", .string⟩],
         [("A", ["x"]), ("B", ["y"])], "A"⟩ "A" "B" ≠
      ⟨[⟨"A", "A", .string⟩, ⟨"B", "B", .string⟩],
       [("A", ["x"]), ("B", ["y"])], "A"⟩ ∧
    ¬((handleRenameField
        ⟨[⟨"A", "A", .string⟩, ⟨"B", "B", .string⟩],
         [("A", ["x"]), ("B", ["y"])], "A"⟩ "A" "B").fields.map
          FieldDefinition.key).Nodup := by
  constructor
  · decide
  · decide

/-! ## Key-index build lemmas -/

theorem deriveKey_ne_empty {ids : List String} {sh : SheetData} {row : JSRow} {k : String}
    (h : deriveKey ids sh row = some k) : k ≠ "" := by
  induction ids with
  | nil => simp [deriveKey] at h
  | cons mId rest ih =>
    rw [deriveKey] at h
    split at h
    · split at h
      · rename_i hcond
        obtain rfl : k = jsTrim (jsToString (getProp row (parseMappingId mId).header)) :=
          (Option.some.injEq _ _ ▸ h).symm
        exact hcond.2.2
      · exact ih h
    · exact ih h

theorem foldl_flatMap_eq {α β γ : Type} (g : α → List β) (f : γ → β → γ) :
    ∀ (l : List α) (a : γ),
      (l.flatMap g).foldl f a = l.foldl (fun acc x => (g x).foldl f acc) a := by
  intro l
  induction l with
  | nil => intro a; rfl
  | cons x t ih =>
    intro a
    rw [List.flatMap_cons, List.foldl_append, List.foldl_cons, ih]

theorem buildKeyMap_eq_foldTriples (sheets : List SheetData) (ids : List String) :
    buildKeyMap sheets ids =
      (rowTriples sheets).foldl
        (fun st t => addRowToKeyMap ids t.2.1 t.1 st t.2.2) ⟨[], []⟩ := by
  unfold buildKeyMap rowTriples
  rw [foldl_flatMap_eq]
  congr 1
  funext st p
  rw [List.foldl_map]

theorem mem_rowTriples {sheets : List SheetData} {t : Nat × SheetData × JSRow} :
    t ∈ rowTriples sheets ↔ (t.1, t.2.1) ∈ sheets.enum ∧ t.2.2 ∈ t.2.1.rows := by
  unfold rowTriples
  rw [List.mem_flatMap]
  constructor
  · rintro ⟨p, hp, hmem⟩
    rcases List.mem_map.mp hmem with ⟨row, hrow, heq⟩
    subst heq
    exact ⟨hp, hrow⟩
  · rintro ⟨henum, hrow⟩
    exact ⟨(t.1, t.2.1), henum, List.mem_map.mpr ⟨t.2.2, hrow, rfl⟩⟩

theorem map_fst_mapIf {β : Type} (l : List (String × β)) (k : String) (g : String × β → β) :
    (l.map (fun p => if p.1 = k then (p.1, g p) else p)).map Prod.fst = l.map Prod.fst := by
  rw [List.map_map]
  apply List.map_congr_left
  intro p _
  by_cases h : p.1 = k <;> simp [h]

theorem lookup_isSome_mem_fst {β : Type} {l : List (String × β)} {k : String}
    (h : (l.lookup k).isSome) : k ∈ l.map Prod.fst := by
  rcases List.lookup_isSome_iff.mp h with ⟨p, hp, hbeq⟩
  exact List.mem_map.mpr ⟨p, hp, (beq_iff_eq.mp hbeq).symm⟩

theorem lookup_none_not_mem_fst {β : Type} {l : List (String × β)} {k : String}
    (h : l.lookup k = none) : k ∉ l.map Prod.fst := by
  intro hmem
  rcases List.mem_map.mp hmem with ⟨p, hp, hfst⟩
  have hne := List.lookup_eq_none_iff.mp h p hp
  rw [← hfst] at hne
  simp at hne

theorem lookup_none_slot {slots : SlotMap} {i : Nat} (h : slots.lookup i = none) :
    i ∉ slots.map Prod.fst := by
  intro hmem
  rcases List.mem_map.mp hmem with ⟨q, hq, hfst⟩
  have hne := List.lookup_eq_none_iff.mp h q hq
  rw [← hfst] at hne
  simp at hne

theorem KMInv_addRow (ids : List String) (ts : List (Nat × SheetData × JSRow))
    (st : KeyMapState) (t : Nat × SheetData × JSRow) (hinv : KMInv ids ts st) :
    KMInv ids (ts ++ [t]) (addRowToKeyMap ids t.2.1 t.1 st t.2.2) := by
  obtain ⟨hA, hB, hC, hD⟩ := hinv
  unfold addRowToKeyMap
  cases hd : deriveKey ids t.2.1 t.2.2 with
  | none =>
    refine ⟨hA, hB, ?_, ?_⟩
    · intro p hp
      obtain ⟨h1, h2, h3⟩ := hC p hp
      refine ⟨h1, h2, fun q hq => ?_⟩
      obtain ⟨t', ht', hrest⟩ := h3 q hq
      exact ⟨t', List.mem_append_left _ ht', hrest⟩
    · intro k
      rw [hD k]
      constructor
      · rintro ⟨t', ht', hderive⟩
        exact ⟨t', List.mem_append_left _ ht', hderive⟩
      · rintro ⟨t', ht', hderive⟩
        rcases List.mem_append.mp ht' with h | h
        · exact ⟨t', h, hderive⟩
        · rw [List.mem_singleton] at h
          subst h
          rw [hd] at hderive
          cases hderive
  | some k0 =>
    have hk0 : k0 ≠ "" := deriveKey_ne_empty hd
    dsimp only
    rw [if_neg hk0]
    by_cases hmem : (st.keyMap.lookup k0).isSome
    · rw [if_pos hmem]
      refine ⟨?_, hB, ?_, ?_⟩
      · rw [map_fst_mapIf]
        exact hA
      · intro p' hp'
        rcases List.mem_map.mp hp' with ⟨p, hp, heq⟩
        by_cases hpk : p.1 = k0
        · rw [if_pos hpk] at heq
          obtain ⟨h1, h2, h3⟩ := hC p hp
          by_cases hslot : (p.2.lookup t.1).isSome
          · rw [if_pos hslot] at heq
            subst heq
            refine ⟨h1, h2, fun q hq => ?_⟩
            obtain ⟨t', ht', hrest⟩ := h3 q hq
            exact ⟨t', List.mem_append_left _ ht', hrest⟩
          · rw [if_neg hslot] at heq
            subst heq
            refine ⟨by simp, ?_, ?_⟩
            · rw [List.map_append]
              rw [List.nodup_append]
              refine ⟨h2, by simp, ?_⟩
              intro x hx
              simp only [List.map_cons, List.map_nil, List.mem_singleton]
              intro hxeq
              subst hxeq
              have hslot2 : p.2.lookup t.1 = none :=
                Option.not_isSome_iff_eq_none.mp (by simp [hslot])
              exact lookup_none_slot hslot2 hx
            · intro q hq
              rcases List.mem_append.mp hq with hq2 | hq2
              · obtain ⟨t', ht', hrest⟩ := h3 q hq2
                exact ⟨t', List.mem_append_left _ ht', hrest⟩
              · rw [List.mem_singleton] at hq2
                subst hq2
                refine ⟨t, List.mem_append_right _ (List.mem_singleton.mpr rfl), rfl, ?_, rfl⟩
                rw [hd, hpk]
        · rw [if_neg hpk] at heq
          subst heq
          obtain ⟨h1, h2, h3⟩ := hC p hp
          refine ⟨h1, h2, fun q hq => ?_⟩
          obtain ⟨t', ht', hrest⟩ := h3 q hq
          exact ⟨t', List.mem_append_left _ ht', hrest⟩
      · intro k
        show k ∈ st.allKeys ↔ _
        rw [hD k]
        constructor
        · rintro ⟨t', ht', hderive⟩
          exact ⟨t', List.mem_append_left _ ht', hderive⟩
        · rintro ⟨t', ht', hderive⟩
          rcases List.mem_append.mp ht' with h | h
          · exact ⟨t', h, hderive⟩
          · rw [List.mem_singleton] at h
            subst h
            rw [hd] at hderive
            obtain rfl : k0 = k := by injection hderive
            have hk0mem : k0 ∈ st.keyMap.map Prod.fst := lookup_isSome_mem_fst hmem
            rw [← hA] at hk0mem
            exact (hD k0).mp hk0mem
    · rw [if_neg hmem]
      have hmem2 : st.keyMap.lookup k0 = none :=
        Option.not_isSome_iff_eq_none.mp (by simp [hmem])
      have hnotmem : k0 ∉ st.keyMap.map Prod.fst := lookup_none_not_mem_fst hmem2
      refine ⟨?_, ?_, ?_, ?_⟩
      · rw [map_fst_mapIf, List.map_append]
        simp [hA]
      · rw [List.nodup_append]
        refine ⟨hB, by simp, ?_⟩
        intro x hx
        simp only [List.mem_singleton]
        intro hxeq
        subst hxeq
        rw [hA] at hx
        exact hnotmem hx
      · intro p' hp'
        rcases List.mem_map.mp hp' with ⟨p, hp, heq⟩
        rcases List.mem_append.mp hp with hpold | hpnew
        · have hpk : p.1 ≠ k0 := by
            intro hcontra
            apply hnotmem
            rw [← hcontra]
            exact List.mem_map.mpr ⟨p, hpold, rfl⟩
          rw [if_neg hpk] at heq
          subst heq
          obtain ⟨h1, h2, h3⟩ := hC p hpold
          refine ⟨h1, h2, fun q hq => ?_⟩
          obtain ⟨t', ht', hrest⟩ := h3 q hq
          exact ⟨t', List.mem_append_left _ ht', hrest⟩
        · rw [List.mem_singleton] at hpnew
          subst hpnew
          rw [if_pos rfl] at heq
          simp only [List.lookup_nil, Option.isSome_none, Bool.false_eq_true, if_false,
            List.nil_append] at heq
          subst heq
          refine ⟨by simp, by simp, ?_⟩
          intro q hq
          rw [List.mem_singleton] at hq
          subst hq
          refine ⟨t, List.mem_append_right _ (List.mem_singleton.mpr rfl), rfl, ?_, rfl⟩
          exact hd
      · intro k
        show k ∈ st.allKeys ++ [k0] ↔ _
        rw [List.mem_append, List.mem_singleton, hD k]
        constructor
        · rintro (⟨t', ht', hderive⟩ | rfl)
          · exact ⟨t', List.mem_append_left _ ht', hderive⟩
          · exact ⟨t, List.mem_append_right _ (List.mem_singleton.mpr rfl), hd⟩
        · rintro ⟨t', ht', hderive⟩
          rcases List.mem_append.mp ht' with h | h
          · exact Or.inl ⟨t', h, hderive⟩
          · rw [List.mem_singleton] at h
            subst h
            rw [hd] at hderive
            right
            cases hderive
            rfl

theorem KMInv_foldl (ids : List String) :
    ∀ (l ts : List (Nat × SheetData × JSRow)) (st : KeyMapState),
      KMInv ids ts st →
      KMInv ids (ts ++ l)
        (l.foldl (fun st t => addRowToKeyMap ids t.2.1 t.1 st t.2.2) st) := by
  intro l
  induction l with
  | nil => intro ts st h; simpa using h
  | cons t l' ih =>
    intro ts st h
    rw [List.foldl_cons]
    have h2 := ih (ts ++ [t]) _ (KMInv_addRow ids ts st t h)
    rw [List.append_assoc] at h2
    simpa using h2

theorem buildKeyMap_inv (sheets : List SheetData) (ids : List String) :
    KMInv ids (rowTriples sheets) (buildKeyMap sheets ids) := by
  rw [buildKeyMap_eq_foldTriples]
  have hinit : KMInv ids [] ⟨[], []⟩ := by
    refine ⟨rfl, List.nodup_nil, ?_, ?_⟩
    · intro p hp; simp at hp
    · intro k; simp
  have := KMInv_foldl ids (rowTriples sheets) [] ⟨[], []⟩ hinit
  simpa using this

theorem mem_dedupFirstGo : ∀ (l seen : List String) (x : String),
    x ∈ dedupFirstGo seen l ↔ x ∈ l ∧ x ∉ seen := by
  intro l
  induction l with
  | nil => intro seen x; simp [dedupFirstGo]
  | cons y ys ih =>
    intro seen x
    rw [dedupFirstGo]
    by_cases hy : y ∈ seen
    · rw [if_pos hy, ih]
      constructor
      · rintro ⟨h1, h2⟩
        exact ⟨List.mem_cons_of_mem y h1, h2⟩
      · rintro ⟨h1, h2⟩
        rcases List.mem_cons.mp h1 with rfl | h1
        · exact absurd hy h2
        · exact ⟨h1, h2⟩
    · rw [if_neg hy]
      constructor
      · intro h
        rcases List.mem_cons.mp h with rfl | h
        · exact ⟨List.mem_cons_self _ _, hy⟩
        · obtain ⟨h1, h2⟩ := (ih _ x).mp h
          refine ⟨List.mem_cons_of_mem y h1, fun hc => h2 ?_⟩
          exact List.mem_append_left _ hc
      · rintro ⟨h1, h2⟩
        rcases List.mem_cons.mp h1 with rfl | h1
        · exact List.mem_cons_self _ _
        · by_cases hxy : x = y
          · subst hxy; exact List.mem_cons_self _ _
          · refine List.mem_cons_of_mem _ ((ih _ x).mpr ⟨h1, ?_⟩)
            intro hc
            rcases List.mem_append.mp hc with hc | hc
            · exact h2 hc
            · rw [List.mem_singleton] at hc
              exact hxy hc

theorem mem_dedupFirst (l : List String) (x : String) :
    x ∈ dedupFirst l ↔ x ∈ l := by
  rw [dedupFirst, mem_dedupFirstGo]
  simp

theorem mem_of_lookup_eq_some {β : Type} {l : List (String × β)} {k : String} {v : β}
    (h : l.lookup k = some v) : (k, v) ∈ l := by
  induction l with
  | nil => simp at h
  | cons p t ih =>
    rw [List.lookup_cons] at h
    cases hk : (k == p.1) with
    | true =>
      rw [hk] at h
      obtain rfl : p.2 = v := by injection h
      have hk2 : k = p.1 := beq_iff_eq.mp hk
      subst hk2
      exact List.mem_cons_self _ _
    | false =>
      rw [hk] at h
      exact List.mem_cons_of_mem p (ih h)

theorem mem_of_slot_lookup_eq_some {l : SlotMap} {i : Nat} {v : JSRow}
    (h : l.lookup i = some v) : (i, v) ∈ l := by
  induction l with
  | nil => simp at h
  | cons p t ih =>
    rw [List.lookup_cons] at h
    cases hk : (i == p.1) with
    | true =>
      rw [hk] at h
      obtain rfl : p.2 = v := by injection h
      have hk2 : i = p.1 := beq_iff_eq.mp hk
      subst hk2
      exact List.mem_cons_self _ _
    | false =>
      rw [hk] at h
      exact List.mem_cons_of_mem p (ih h)

/-- C3: the outer join's key set is exactly the union of derived keys
across all sheets, the inner join's keys are exactly those whose slot
count equals the sheet count, inner's keys are a subset of outer's, and
inner's size is bounded by every sheet's distinct derived-key count. -/
theorem join_inner_outer_props (sheets : List SheetData) (m : Mapping)
    (jk : String) (mth : MergeMethod) (rd : Bool) :
    (∀ k, k ∈ joinKeySequence sheets m ⟨mth, jk, .inner, rd⟩ →
      k ∈ joinKeySequence sheets m ⟨mth, jk, .outer, rd⟩) ∧
    joinKeySequence sheets m ⟨mth, jk, .inner, rd⟩ =
      (joinKeySequence sheets m ⟨mth, jk, .outer, rd⟩).filter (fun k =>
        match (buildKeyMap sheets ((m.lookup jk).getD [])).keyMap.lookup k with
        | some slots => slots.length = sheets.length
        | none => false) ∧
    (∀ k, k ∈ joinKeySequence sheets m ⟨mth, jk, .outer, rd⟩ ↔
      ∃ p ∈ sheets.enum, ∃ row ∈ p.2.rows,
        deriveKey ((m.lookup jk).getD []) p.2 row = some k) ∧
    ∀ i (h : i < sheets.length),
      (joinKeySequence sheets m ⟨mth, jk, .inner, rd⟩).length ≤
        (dedupFirst ((sheets.get ⟨i, h⟩).rows.filterMap
          (deriveKey ((m.lookup jk).getD []) (sheets.get ⟨i, h⟩)))).length := by
  obtain ⟨hA, hB, hC, hD⟩ := buildKeyMap_inv sheets ((m.lookup jk).getD [])
  refine ⟨?_, rfl, ?_, ?_⟩
  · intro k hk
    exact List.mem_of_mem_filter hk
  · intro k
    rw [show joinKeySequence sheets m ⟨mth, jk, .outer, rd⟩ =
      (buildKeyMap sheets ((m.lookup jk).getD [])).allKeys from rfl]
    rw [hD k]
    constructor
    · rintro ⟨t, ht, hderive⟩
      obtain ⟨henum, hrow⟩ := mem_rowTriples.mp ht
      exact ⟨(t.1, t.2.1), henum, t.2.2, hrow, hderive⟩
    · rintro ⟨p, hp, row, hrow, hderive⟩
      exact ⟨(p.1, p.2, row), mem_rowTriples.mpr ⟨hp, hrow⟩, hderive⟩
  · intro i h
    have hnodupInner : (joinKeySequence sheets m ⟨mth, jk, .inner, rd⟩).Nodup :=
      (List.filter_sublist _).nodup hB
    have hsub : ∀ k ∈ joinKeySequence sheets m ⟨mth, jk, .inner, rd⟩,
        k ∈ dedupFirst ((sheets.get ⟨i, h⟩).rows.filterMap
          (deriveKey ((m.lookup jk).getD []) (sheets.get ⟨i, h⟩))) := by
      intro k hk
      have hpred := List.of_mem_filter hk
      cases hlk : (buildKeyMap sheets ((m.lookup jk).getD [])).keyMap.lookup k with
      | none =>
        rw [hlk] at hpred
        simp at hpred
      | some slots =>
        rw [hlk] at hpred
        simp only [decide_eq_true_eq] at hpred
        have hks := mem_of_lookup_eq_some hlk
        obtain ⟨hne, hnodupIdx, hslots⟩ := hC _ hks
        have hidxlt : ∀ q ∈ slots, q.1 < sheets.length := by
          intro q hq
          obtain ⟨t, ht, ht1, -, -⟩ := hslots q hq
          have henum := (mem_rowTriples.mp ht).1
          rw [List.mem_enum_iff_getElem?] at henum
          have := List.getElem?_eq_some.mp henum
          rw [ht1] at this
          exact this.1
        have hcard : (slots.map Prod.fst).toFinset = Finset.range sheets.length := by
          apply Finset.eq_of_subset_of_card_le
          · intro x hx
            rw [List.mem_toFinset] at hx
            rcases List.mem_map.mp hx with ⟨q, hq, rfl⟩
            rw [Finset.mem_range]
            exact hidxlt q hq
          · rw [Finset.card_range, List.toFinset_card_of_nodup hnodupIdx,
              List.length_map, hpred]
        have hi : i ∈ slots.map Prod.fst := by
          rw [← List.mem_toFinset, hcard, Finset.mem_range]
          exact h
        rcases List.mem_map.mp hi with ⟨q, hq, hq1⟩
        obtain ⟨t, ht, ht1, htd, -⟩ := hslots q hq
        obtain ⟨henum, hrow⟩ := mem_rowTriples.mp ht
        rw [List.mem_enum_iff_getElem?] at henum
        have hti : t.1 = i := by rw [ht1, hq1]
        rw [hti] at henum
        have hsheet : sheets.get ⟨i, h⟩ = t.2.1 := by
          rw [List.getElem?_eq_getElem h] at henum
          have := Option.some.inj henum
          rw [List.get_eq_getElem]
          exact this
        rw [mem_dedupFirst, List.mem_filterMap]
        refine ⟨t.2.2, ?_, ?_⟩
        · rw [hsheet]; exact hrow
        · rw [hsheet]; exact htd
    calc (joinKeySequence sheets m ⟨mth, jk, .inner, rd⟩).length
        = (joinKeySequence sheets m ⟨mth, jk, .inner, rd⟩).toFinset.card :=
          (List.toFinset_card_of_nodup hnodupInner).symm
      _ ≤ (dedupFirst ((sheets.get ⟨i, h⟩).rows.filterMap
            (deriveKey ((m.lookup jk).getD []) (sheets.get ⟨i, h⟩)))).toFinset.card := by
          apply Finset.card_le_card
          intro x hx
          rw [List.mem_toFinset] at *
          exact hsub x hx
      _ ≤ _ := List.toFinset_card_le _

/-- Witness for C3 at a one-sheet instance. -/
theorem join_inner_outer_props_witness :
    (joinKeySequence [⟨"f", "s", ["K"], [[("K", JSValue.str "a")]]⟩]
        [("K", ["f::s::K"])] ⟨.join, "K", .inner, false⟩).length ≤
      (dedupFirst ((([⟨"f", "s", ["K"], [[("K", JSValue.str "a")]]⟩] : List SheetData).get
          ⟨0, by decide⟩).rows.filterMap
        (deriveKey ((([("K", ["f::s::K"])] : Mapping).lookup "K").getD [])
          (([⟨"f", "s", ["K"], [[("K", JSValue.str "a")]]⟩] : List SheetData).get
            ⟨0, by decide⟩)))).length :=
  (join_inner_outer_props [⟨"f", "s", ["K"], [[("K", JSValue.str "a")]]⟩]
    [("K", ["f::s::K"])] "K" .join false).2.2.2 0 (by decide)

/-! ## Row filtering does not change the key index -/

theorem deriveKey_mk (fn sn : String) (hd : List String) (r1 r2 : List JSRow)
    (row : JSRow) : ∀ ids : List String,
    deriveKey ids ⟨fn, sn, hd, r1⟩ row = deriveKey ids ⟨fn, sn, hd, r2⟩ row := by
  intro ids
  induction ids with
  | nil => rfl
  | cons mId rest ih =>
    rw [deriveKey, deriveKey]
    by_cases h1 : (parseMappingId mId).fileName = fn ∧ (parseMappingId mId).sheetName = sn
    · rw [if_pos h1, if_pos h1]
      by_cases h2 : getProp row (parseMappingId mId).header ≠ JSValue.undef ∧
          getProp row (parseMappingId mId).header ≠ JSValue.null ∧
          jsTrim (jsToString (getProp row (parseMappingId mId).header)) ≠ ""
      · rw [if_pos h2, if_pos h2]
      · rw [if_neg h2, if_neg h2, ih]
    · rw [if_neg h1, if_neg h1, ih]

theorem withSrc_mk (fn sn : String) (hd : List String) (r1 r2 : List JSRow)
    (row : JSRow) : withSrc ⟨fn, sn, hd, r1⟩ row = withSrc ⟨fn, sn, hd, r2⟩ row := rfl

theorem addRow_rows_irrel (ids : List String) (sh : SheetData) (X : List JSRow)
    (i : Nat) (st : KeyMapState) (row : JSRow) :
    addRowToKeyMap ids { sh with rows := X } i st row =
      addRowToKeyMap ids sh i st row := by
  obtain ⟨fn, sn, hd, rows⟩ := sh
  show addRowToKeyMap ids ⟨fn, sn, hd, X⟩ i st row =
    addRowToKeyMap ids ⟨fn, sn, hd, rows⟩ i st row
  rw [addRowToKeyMap, addRowToKeyMap, deriveKey_mk fn sn hd X rows row ids]
  cases hk : deriveKey ids ⟨fn, sn, hd, rows⟩ row with
  | none => rfl
  | some k =>
    rw [withSrc_mk fn sn hd X rows row]

theorem slotFieldValue_rows_irrel (sh : SheetData) (X : List JSRow) (sRow : JSRow) :
    ∀ ids : List String,
      slotFieldValue { sh with rows := X } sRow ids = slotFieldValue sh sRow ids := by
  obtain ⟨fn, sn, hd, rows⟩ := sh
  intro ids
  induction ids with
  | nil => rfl
  | cons mId rest ih =>
    show slotFieldValue ⟨fn, sn, hd, X⟩ sRow (mId :: rest) =
      slotFieldValue ⟨fn, sn, hd, rows⟩ sRow (mId :: rest)
    rw [slotFieldValue, slotFieldValue]
    by_cases h1 : (parseMappingId mId).fileName = fn ∧ (parseMappingId mId).sheetName = sn
    · rw [if_pos h1, if_pos h1]
      by_cases h2 : getProp sRow (parseMappingId mId).header ≠ JSValue.undef ∧
          getProp sRow (parseMappingId mId).header ≠ JSValue.null ∧
          getProp sRow (parseMappingId mId).header ≠ JSValue.str ""
      · rw [if_pos h2, if_pos h2]
      · rw [if_neg h2, if_neg h2, ih]
    · rw [if_neg h1, if_neg h1, ih]

theorem foldl_addRow_filter (ids : List String) (sh : SheetData) (i : Nat) :
    ∀ (rows : List JSRow) (st : KeyMapState),
      (rows.filter (fun row => (deriveKey ids sh row).isSome)).foldl
        (addRowToKeyMap ids sh i) st = rows.foldl (addRowToKeyMap ids sh i) st := by
  intro rows
  induction rows with
  | nil => intro st; rfl
  | cons row t ih =>
    intro st
    rw [List.foldl_cons]
    cases hd : deriveKey ids sh row with
    | none =>
      rw [List.filter_cons, if_neg (by simp [hd]), ih]
      have hskip : addRowToKeyMap ids sh i st row = st := by
        unfold addRowToKeyMap
        rw [hd]
      rw [hskip]
    | some k =>
      rw [List.filter_cons, if_pos (by simp [hd]), List.foldl_cons, ih]

theorem buildKeyMap_filter_invariant (sheets : List SheetData) (ids : List String) :
    buildKeyMap (sheets.map (fun sh =>
      { sh with rows := sh.rows.filter (fun row => (deriveKey ids sh row).isSome) })) ids =
    buildKeyMap sheets ids := by
  unfold buildKeyMap
  rw [List.enum_map, List.foldl_map]
  congr 1
  funext st p
  have heq : addRowToKeyMap ids
      { p.2 with rows := p.2.rows.filter (fun row => (deriveKey ids p.2 row).isSome) } p.1 =
      addRowToKeyMap ids p.2 p.1 :=
    funext fun st2 => funext fun row => addRow_rows_irrel ids p.2 _ p.1 st2 row
  show (p.2.rows.filter (fun row => (deriveKey ids p.2 row).isSome)).foldl
      (addRowToKeyMap ids
        { p.2 with rows := p.2.rows.filter (fun row => (deriveKey ids p.2 row).isSome) } p.1)
      st = _
  rw [heq, foldl_addRow_filter]

theorem joinFieldValue_enum_map (entry : SlotMap) (ids : List String)
    (g : SheetData → List JSRow) :
    ∀ l : List (Nat × SheetData),
      joinFieldValue entry ids (l.map (Prod.map id (fun sh => { sh with rows := g sh }))) =
        joinFieldValue entry ids l := by
  intro l
  induction l with
  | nil => rfl
  | cons p t ih =>
    obtain ⟨i, sh⟩ := p
    show joinFieldValue entry ids ((i, { sh with rows := g sh }) :: _) = _
    rw [joinFieldValue, joinFieldValue]
    cases entry.lookup i with
    | none => exact ih
    | some sRow =>
      have hs := slotFieldValue_rows_irrel sh (g sh) sRow ids
      show (match slotFieldValue { sh with rows := g sh } sRow ids with
          | some v => v
          | none => joinFieldValue entry ids
              (List.map (Prod.map id fun sh => { sh with rows := g sh }) t)) =
        (match slotFieldValue sh sRow ids with
          | some v => v
          | none => joinFieldValue entry ids t)
      rw [hs]
      cases slotFieldValue sh sRow ids with
      | none => exact ih
      | some v => rfl

theorem buildJoinRow_rows_irrel (sheets : List SheetData) (m : Mapping)
    (st : KeyMapState) (idx : Nat) (k : String) (g : SheetData → List JSRow) :
    buildJoinRow (sheets.map (fun sh => { sh with rows := g sh })) m st idx k =
      buildJoinRow sheets m st idx k := by
  unfold buildJoinRow
  have h : ∀ ids : List String,
      joinFieldValue ((st.keyMap.lookup k).getD []) ids
        (sheets.map (fun sh => { sh with rows := g sh })).enum =
      joinFieldValue ((st.keyMap.lookup k).getD []) ids sheets.enum := by
    intro ids
    rw [List.enum_map]
    exact joinFieldValue_enum_map _ ids g sheets.enum
  simp only [h]

/-- C2 (amended): the left join's key sequence is the first sheet's rows'
first-truthy-candidate trimmed values in row order, deduplicated to first
occurrence (a derivation that differs from the key index's non-empty-trim
test on values like the number 0 or whitespace-only strings), and is
independent of the other sheets' content; rows that derive no index key
are excluded from the key index entirely and contribute nothing to outer
or inner join results. -/
theorem left_join_key_semantics (sheets : List SheetData) (m : Mapping)
    (jk : String) (mth : MergeMethod) (rd : Bool) :
    (joinKeySequence sheets m ⟨mth, jk, .left, rd⟩ =
      match sheets with
      | [] => []
      | s0 :: _ => dedupFirst (s0.rows.filterMap
          (deriveLeftKey ((m.lookup jk).getD []) s0))) ∧
    (∀ (s0 : SheetData) (rest rest2 : List SheetData),
      joinKeySequence (s0 :: rest) m ⟨mth, jk, .left, rd⟩ =
        joinKeySequence (s0 :: rest2) m ⟨mth, jk, .left, rd⟩) ∧
    buildKeyMap (sheets.map (fun sh =>
      { sh with rows := (sh.rows.filter
          (fun row => (deriveKey ((m.lookup jk).getD []) sh row).isSome)) }))
      ((m.lookup jk).getD []) = buildKeyMap sheets ((m.lookup jk).getD []) ∧
    ∀ jt : JoinType, jt ≠ .left →
      joinData (sheets.map (fun sh =>
        { sh with rows := (sh.rows.filter
            (fun row => (deriveKey ((m.lookup jk).getD []) sh row).isSome)) })) m
        ⟨mth, jk, jt, rd⟩ =
      joinData sheets m ⟨mth, jk, jt, rd⟩ := by
  refine ⟨rfl, fun s0 rest rest2 => rfl, buildKeyMap_filter_invariant sheets _, ?_⟩
  intro jt hjt
  unfold joinData
  dsimp only
  rw [buildKeyMap_filter_invariant]
  cases jt with
  | left => exact absurd rfl hjt
  | outer =>
    simp only [joinFinalKeys]
    simp only [buildJoinRow_rows_irrel]
  | inner =>
    simp only [joinFinalKeys, List.length_map]
    simp only [buildJoinRow_rows_irrel]

/-- Witness for C2 (amended): a no-key row filtered out of the sheets
leaves an outer join unchanged. -/
theorem left_join_key_semantics_witness :
    joinData (([⟨"f", "s", ["K"], [[("K", JSValue.str "a")], []]⟩] : List SheetData).map (fun sh =>
        { sh with rows := (sh.rows.filter
            (fun row => (deriveKey ((([("K", ["f::s::K"])] : Mapping).lookup "K").getD [])
              sh row).isSome)) })) [("K", ["f::s::K"])]
      ⟨.join, "K", .outer, false⟩ =
    joinData [⟨"f", "s", ["K"], [[("K", JSValue.str "a")], []]⟩] [("K", ["f::s::K"])]
      ⟨.join, "K", .outer, false⟩ :=
  (left_join_key_semantics [⟨"f", "s", ["K"], [[("K", JSValue.str "a")], []]⟩]
    [("K", ["f::s::K"])] "K" .join false).2.2.2 .outer (by decide)

/-- Counterexample to C2 as stated: a row whose join-key value is the
number `0` is entered into the key index (its derived key is `"0"`), but
the left join's truthiness test drops it, so the left key sequence is not
the derived-key sequence of the first sheet. -/
theorem left_join_key_mismatch :
    joinKeySequence [⟨"f", "s", ["K"], [[("K", JSValue.num 0)]]⟩]
        [("K", ["f::s::K"])] ⟨.join, "K", .left, false⟩ = [] ∧
    dedupFirst (([[("K", JSValue.num 0)]] : List JSRow).filterMap
      (deriveKey ["f::s::K"] ⟨"f", "s", ["K"], [[("K", JSValue.num 0)]]⟩)) = ["0"] ∧
    joinKeySequence [⟨"f", "s", ["K"], [[("K", JSValue.num 0)]]⟩]
        [("K", ["f::s::K"])] ⟨.join, "K", .outer, false⟩ = ["0"] := by
  refine ⟨by decide, by decide, by decide⟩

theorem foldl_min_slot (rest : List (Nat × JSRow)) : ∀ s : Nat × JSRow,
    (rest.foldl (fun best cur => if cur.1 < best.1 then cur else best) s) ∈ s :: rest ∧
    (rest.foldl (fun best cur => if cur.1 < best.1 then cur else best) s).1 ≤ s.1 ∧
    ∀ q ∈ rest,
      (rest.foldl (fun best cur => if cur.1 < best.1 then cur else best) s).1 ≤ q.1 := by
  induction rest with
  | nil =>
    intro s
    exact ⟨List.mem_cons_self s [], Nat.le_refl _, by simp⟩
  | cons c rs ih =>
    intro s
    rw [List.foldl_cons]
    obtain ⟨hmem, hle, hall⟩ := ih (if c.1 < s.1 then c else s)
    have hle_s : (if c.1 < s.1 then c else s).1 ≤ s.1 := by
      by_cases hc : c.1 < s.1
      · rw [if_pos hc]; exact Nat.le_of_lt hc
      · rw [if_neg hc]
    have hle_c : (if c.1 < s.1 then c else s).1 ≤ c.1 := by
      by_cases hc : c.1 < s.1
      · rw [if_pos hc]
      · rw [if_neg hc]; exact Nat.le_of_not_lt hc
    refine ⟨?_, Nat.le_trans hle hle_s, ?_⟩
    · rcases List.mem_cons.mp hmem with heq | hmem2
      · rw [heq]
        by_cases hc : c.1 < s.1
        · rw [if_pos hc]; exact List.mem_cons_of_mem s (List.mem_cons_self c rs)
        · rw [if_neg hc]; exact List.mem_cons_self s _
      · exact List.mem_cons_of_mem s (List.mem_cons_of_mem c hmem2)
    · intro q hq
      rcases List.mem_cons.mp hq with rfl | hq2
      · exact Nat.le_trans hle hle_c
      · exact hall q hq2

theorem objValuesFirst_min (slots : SlotMap) (hne : slots ≠ []) :
    ∃ i r, (i, r) ∈ slots ∧ (∀ q ∈ slots, i ≤ q.1) ∧
      objValuesFirst slots = some r := by
  cases slots with
  | nil => exact absurd rfl hne
  | cons s rest =>
    obtain ⟨hmem, hle, hall⟩ := foldl_min_slot rest s
    refine ⟨(rest.foldl (fun best cur => if cur.1 < best.1 then cur else best) s).1,
      (rest.foldl (fun best cur => if cur.1 < best.1 then cur else best) s).2,
      ?_, ?_, ?_⟩
    · exact hmem
    · intro q hq
      rcases List.mem_cons.mp hq with rfl | hq2
      · exact hle
      · exact hall q hq2
    · rfl

theorem getProp_withSrc_file (sh : SheetData) (row : JSRow) :
    getProp (withSrc sh row) "_srcFile" = .str sh.fileName := by
  unfold withSrc
  rw [getProp_setProp_other _ _ _ _ (by decide), getProp_setProp_same]

theorem getProp_withSrc_sheet (sh : SheetData) (row : JSRow) :
    getProp (withSrc sh row) "_srcSheet" = .str sh.sheetName := by
  unfold withSrc
  rw [getProp_setProp_same]

theorem buildJoinRow_src (sheets : List SheetData) (m : Mapping) (st : KeyMapState)
    (idx : Nat) (k : String) :
    getProp (buildJoinRow sheets m st idx k) "_sourceFile" =
      (match objValuesFirst ((st.keyMap.lookup k).getD []) with
       | some r => getProp r "_srcFile"
       | none => .str "Joined") ∧
    getProp (buildJoinRow sheets m st idx k) "_sourceSheet" =
      (match objValuesFirst ((st.keyMap.lookup k).getD []) with
       | some r => getProp r "_srcSheet"
       | none => .str "Joined") := by
  unfold buildJoinRow
  constructor
  · rw [getProp_setProp_other _ _ _ _ (by decide), getProp_setProp_same]
  · rw [getProp_setProp_same]

/-- C4 (amended): a join row's `_sourceFile`/`_sourceSheet` are the
provenance of the slot with the smallest sheet index present for the
row's key — regardless of which slot contributed field values — and the
sentinel `"Joined"` exactly when the key has no slot at all. -/
theorem join_provenance_min_slot (sheets : List SheetData) (m : Mapping)
    (jk : String) (idx : Nat) (k : String) :
    ((buildKeyMap sheets ((m.lookup jk).getD [])).keyMap.lookup k = none →
      getProp (buildJoinRow sheets m (buildKeyMap sheets ((m.lookup jk).getD [])) idx k)
          "_sourceFile" = .str "Joined" ∧
      getProp (buildJoinRow sheets m (buildKeyMap sheets ((m.lookup jk).getD [])) idx k)
          "_sourceSheet" = .str "Joined") ∧
    ∀ slots, (buildKeyMap sheets ((m.lookup jk).getD [])).keyMap.lookup k = some slots →
      ∃ i r, (i, r) ∈ slots ∧ (∀ q ∈ slots, i ≤ q.1) ∧
        ∃ (h : i < sheets.length),
          getProp (buildJoinRow sheets m (buildKeyMap sheets ((m.lookup jk).getD [])) idx k)
              "_sourceFile" = .str (sheets.get ⟨i, h⟩).fileName ∧
          getProp (buildJoinRow sheets m (buildKeyMap sheets ((m.lookup jk).getD [])) idx k)
              "_sourceSheet" = .str (sheets.get ⟨i, h⟩).sheetName := by
  obtain ⟨hA, hB, hC, hD⟩ := buildKeyMap_inv sheets ((m.lookup jk).getD [])
  obtain ⟨hsrcF, hsrcS⟩ := buildJoinRow_src sheets m
    (buildKeyMap sheets ((m.lookup jk).getD [])) idx k
  constructor
  · intro hnone
    rw [hsrcF, hsrcS, hnone]
    exact ⟨rfl, rfl⟩
  · intro slots hsome
    obtain ⟨hneslots, -, hslots⟩ := hC (k, slots) (mem_of_lookup_eq_some hsome)
    obtain ⟨i, r, hmem, hmin, hfold⟩ := objValuesFirst_min slots hneslots
    obtain ⟨t, ht, ht1, htd, hwsrc⟩ := hslots (i, r) hmem
    obtain ⟨henum, hrow⟩ := mem_rowTriples.mp ht
    rw [List.mem_enum_iff_getElem?, ht1] at henum
    have hlt : i < sheets.length := (List.getElem?_eq_some.mp henum).1
    have hsheet : sheets.get ⟨i, hlt⟩ = t.2.1 := by
      rw [List.getElem?_eq_getElem hlt] at henum
      have := Option.some.inj henum
      rw [List.get_eq_getElem]
      exact this
    refine ⟨i, r, hmem, hmin, hlt, ?_, ?_⟩
    · rw [hsrcF, hsome]
      show (match objValuesFirst slots with
        | some r => getProp r "_srcFile"
        | none => JSValue.str "Joined") = _
      rw [hfold]
      show getProp r "_srcFile" = _
      rw [show r = withSrc t.2.1 t.2.2 from hwsrc, getProp_withSrc_file, hsheet]
    · rw [hsrcS, hsome]
      show (match objValuesFirst slots with
        | some r => getProp r "_srcSheet"
        | none => JSValue.str "Joined") = _
      rw [hfold]
      show getProp r "_srcSheet" = _
      rw [show r = withSrc t.2.1 t.2.2 from hwsrc, getProp_withSrc_sheet, hsheet]

/-- Witness for C4 (amended): the provenance of a one-key, one-sheet join
row is the single slot's sheet. -/
theorem join_provenance_min_slot_witness :
    ∃ i r,
      (i, r) ∈ ([(0, withSrc ⟨"f", "s", ["K"], [[("K", JSValue.str "a")]]⟩
          [("K", JSValue.str "a")])] : SlotMap) ∧
      (∀ q ∈ ([(0, withSrc ⟨"f", "s", ["K"], [[("K", JSValue.str "a")]]⟩
          [("K", JSValue.str "a")])] : SlotMap), i ≤ q.1) ∧
      ∃ (h : i < ([⟨"f", "s", ["K"], [[("K", JSValue.str "a")]]⟩] : List SheetData).length),
        getProp (buildJoinRow [⟨"f", "s", ["K"], [[("K", JSValue.str "a")]]⟩]
            [("K", ["f::s::K"])]
            (buildKeyMap [⟨"f", "s", ["K"], [[("K", JSValue.str "a")]]⟩]
              ((([("K", ["f::s::K"])] : Mapping).lookup "K").getD [])) 0 "a")
            "_sourceFile" =
          .str (([⟨"f", "s", ["K"], [[("K", JSValue.str "a")]]⟩] : List SheetData).get
            ⟨i, h⟩).fileName ∧
        getProp (buildJoinRow [⟨"f", "s", ["K"], [[("K", JSValue.str "a")]]⟩]
            [("K", ["f::s::K"])]
            (buildKeyMap [⟨"f", "s", ["K"], [[("K", JSValue.str "a")]]⟩]
              ((([("K", ["f::s::K"])] : Mapping).lookup "K").getD [])) 0 "a")
            "_sourceSheet" =
          .str (([⟨"f", "s", ["K"], [[("K", JSValue.str "a")]]⟩] : List SheetData).get
            ⟨i, h⟩).sheetName :=
  (join_provenance_min_slot [⟨"f", "s", ["K"], [[("K", JSValue.str "a")]]⟩]
    [("K", ["f::s::K"])] "K" 0 "a").2
    [(0, withSrc ⟨"f", "s", ["K"], [[("K", JSValue.str "a")]]⟩ [("K", JSValue.str "a")])]
    (by decide)

/-- Counterexample to C4 as stated: the field value of the only output
row comes from the second sheet's slot, yet `_sourceFile` names the first
sheet (the minimal-index slot), not the contributing one. -/
theorem join_provenance_not_contributor :
    (joinData [⟨"fa", "sa", ["K"], [[("K", JSValue.str "k1")]]⟩,
        ⟨"fb", "sb", ["K", "X"], [[("K", JSValue.str "k1"), ("X", JSValue.str "v")]]⟩]
      [("X", ["fb::sb::X"]), ("K", ["fa::sa::K", "fb::sb::K"])]
      ⟨.join, "K", .outer, false⟩).length = 1 ∧
    getProp ((joinData [⟨"fa", "sa", ["K"], [[("K", JSValue.str "k1")]]⟩,
        ⟨"fb", "sb", ["K", "X"], [[("K", JSValue.str "k1"), ("X", JSValue.str "v")]]⟩]
      [("X", ["fb::sb::X"]), ("K", ["fa::sa::K", "fb::sb::K"])]
      ⟨.join, "K", .outer, false⟩).headD []) "X" = .str "v" ∧
    slotFieldValue ⟨"fa", "sa", ["K"], [[("K", JSValue.str "k1")]]⟩
      (withSrc ⟨"fa", "sa", ["K"], [[("K", JSValue.str "k1")]]⟩ [("K", JSValue.str "k1")])
      ["fb::sb::X"] = none ∧
    getProp ((joinData [⟨"fa", "sa", ["K"], [[("K", JSValue.str "k1")]]⟩,
        ⟨"fb", "sb", ["K", "X"], [[("K", JSValue.str "k1"), ("X", JSValue.str "v")]]⟩]
      [("X", ["fb::sb::X"]), ("K", ["fa::sa::K", "fb::sb::K"])]
      ⟨.join, "K", .outer, false⟩).headD []) "_sourceFile" = .str "fa" := by
  refine ⟨by decide, by decide, by decide, by decide⟩
